import Mathlib

/-!
Verification of the stream-formatting pipeline and connection loop of
pysermon (src/pysermon.py), as a shallow embedding in Lean.

Modelling conventions:
* Bytes are natural numbers (the Python code iterates a bytes object,
  yielding values 0..255).
* Text is modelled as List Char; a write to a stream appends one token
  (call-site tag plus the written characters) to a trace.
* The ambient wall clock (time.time()) is modelled by a function
  clock : Nat -> Nat from sample indices to abstract time values; the
  writer state carries the index of the next sample.  The float
  rendering "%18.7f" of a time value t is abstracted to the decimal
  digits of t (function natChars below); the surrounding separator
  text follows the source exactly.
* Each stream write is flushed immediately in the source; flushing is
  a no-op in this purely functional model.
* The warnings field of the writer state models operator-facing status
  messages (the xprint channel of the source).  None of the Writer
  methods in the source emit such a message, which the theorems below
  make explicit.
-/

namespace PySermon

/-- Decimal digit character, used to render abstract time values. -/
def digitChar (n : Nat) : Char := Char.ofNat (48 + n % 10)

/-- Decimal digits of a natural number, structurally recursive on a
fuel bound (n + 1 is always enough fuel for n). -/
def natCharsAux : Nat → Nat → List Char
  | 0, _ => []
  | fuel + 1, n =>
    if n < 10 then [digitChar n]
    else natCharsAux fuel (n / 10) ++ [digitChar (n % 10)]

/-- Decimal rendering of a natural number (abstraction of the numeric
part of the "%18.7f" timestamp format of the source). -/
def natChars (n : Nat) : List Char := natCharsAux (n + 1) n

/-- Call sites of stream writes in pysermon.py.  data = the hex byte
pairs of HexWriter.write; chr = the single characters of
LineWriter.write; raw = the decoded chunk of RawWriter.write; padding
= the short-row padding of HexWriter.__write_ascii; rowBreak = the
bare line break of HexWriter.__write_ascii when write_ascii is off;
meta = Writer._write_meta; ts = Writer._write_timestamp. -/
inductive Tag
  | data
  | chr
  | raw
  | padding
  | rowBreak
  | meta
  | ts
  deriving DecidableEq

/-- Immutable per-session writer configuration (fields add_timestamp,
with_color, log_stream of class Writer; has_log models
log_stream is not None, log_closed models log_stream.closed). -/
structure WriterCfg where
  add_timestamp : Bool
  with_color : Bool
  has_log : Bool
  log_closed : Bool
  deriving DecidableEq

/-- Observable state of a Writer: the clock sample index, the trace of
writes to the primary stream (tagged by call site), the trace of
writes to the log stream, and the operator-warning channel. -/
structure WriterSt where
  ticks : Nat
  primary : List (Tag × List Char)
  log : List (List Char)
  warnings : List (List Char)
  deriving DecidableEq

/-- Writer.__log: mirror data to the log stream when one is configured
and not closed; otherwise do nothing (silently). -/
def wlog (cfg : WriterCfg) (s : List Char) (st : WriterSt) : WriterSt :=
  if cfg.has_log = true ∧ cfg.log_closed = false then
    { st with log := st.log ++ [s] }
  else st

/-- Writer.write: write data to the primary stream, flush, then mirror
the same data to the log. -/
def wwrite (cfg : WriterCfg) (g : Tag) (s : List Char) (st : WriterSt) : WriterSt :=
  wlog cfg s { st with primary := st.primary ++ [(g, s)] }

/-- Uncolored metadata line as written by Writer._write_meta. -/
def metaPlain (s : List Char) : List Char := '|' :: ' ' :: (s ++ ['\n'])

/-- Colored metadata line as written by Writer._write_meta. -/
def metaColored (s : List Char) : List Char :=
  "\x1b[0;34m| \x1b[0;32m".data ++ s ++ "\x1b[0;m\n".data

/-- Metadata line as rendered for the primary stream. -/
def metaRendered (cfg : WriterCfg) (s : List Char) : List Char :=
  if cfg.with_color = true then metaColored s else metaPlain s

/-- Writer._write_meta: write the (possibly colored) metadata line to
the primary stream and mirror the uncolored form to the log. -/
def wmeta (cfg : WriterCfg) (s : List Char) (st : WriterSt) : WriterSt :=
  wlog cfg (metaPlain s) { st with primary := st.primary ++ [(Tag.meta, metaRendered cfg s)] }

/-- Uncolored timestamp marker "%18.7f | " at time value t. -/
def tsPlain (t : Nat) : List Char := natChars t ++ " | ".data

/-- Colored timestamp marker at time value t. -/
def tsColored (t : Nat) : List Char :=
  "\x1b[0;35m".data ++ natChars t ++ " \x1b[0;34m|\x1b[0;m ".data

/-- Timestamp marker as rendered for the primary stream. -/
def tsRendered (cfg : WriterCfg) (t : Nat) : List Char :=
  if cfg.with_color = true then tsColored t else tsPlain t

/-- Writer._write_timestamp: when add_timestamp is set, write a
timestamp marker to the primary stream and mirror an uncolored marker
to the log.  The source calls time.time() separately for the primary
write and for the mirrored write, hence the two clock samples. -/
def wtimestamp (cfg : WriterCfg) (clock : Nat → Nat) (st : WriterSt) : WriterSt :=
  if cfg.add_timestamp = true then
    let t1 := clock st.ticks
    let t2 := clock (st.ticks + 1)
    wlog cfg (tsPlain t2)
      { st with primary := st.primary ++ [(Tag.ts, tsRendered cfg t1)], ticks := st.ticks + 2 }
  else st

/-- Fresh writer state starting at clock sample index t0. -/
def initW (t0 : Nat) : WriterSt :=
  { ticks := t0, primary := [], log := [], warnings := [] }

/-- One invocation of a base Writer operation (the sink interface used
by all formatter variants). -/
inductive WOp
  | write (g : Tag) (s : List Char)
  | meta (s : List Char)
  | timestamp

/-- Run a single Writer operation. -/
def runOp (cfg : WriterCfg) (clock : Nat → Nat) (st : WriterSt) : WOp → WriterSt
  | WOp.write g s => wwrite cfg g s st
  | WOp.meta s => wmeta cfg s st
  | WOp.timestamp => wtimestamp cfg clock st

/-- Run a sequence of Writer operations. -/
def runOps (cfg : WriterCfg) (clock : Nat → Nat) (st : WriterSt) (ops : List WOp) : WriterSt :=
  ops.foldl (runOp cfg clock) st

/-- Text written to the primary stream, in order. -/
def ptext (st : WriterSt) : List Char := (st.primary.map Prod.snd).flatten

/-- Text written to the log stream, in order. -/
def ltext (st : WriterSt) : List Char := st.log.flatten

/-- State of class LineWriter: the base writer state plus the first
flag (set until the first character has been processed). -/
structure LineSt where
  w : WriterSt
  first : Bool
  deriving DecidableEq

/-- Fresh LineWriter (constructor sets first = True). -/
def initLine (t0 : Nat) : LineSt := { w := initW t0, first := true }

/-- Body of the per-character loop of LineWriter.write: emit a leading
timestamp on the very first character, write the character, and emit
a timestamp again right after a line feed. -/
def lineWriteByte (cfg : WriterCfg) (clock : Nat → Nat) (st : LineSt) (b : Nat) : LineSt :=
  let st1 := if st.first = true then
      { st with w := wtimestamp cfg clock st.w, first := false }
    else st
  let st2 := { st1 with w := wwrite cfg Tag.chr [Char.ofNat b] st1.w }
  if Char.ofNat b = '\n' then { st2 with w := wtimestamp cfg clock st2.w } else st2

/-- LineWriter.write over one chunk. -/
def lineWrite (cfg : WriterCfg) (clock : Nat → Nat) (st : LineSt) (bs : List Nat) : LineSt :=
  bs.foldl (lineWriteByte cfg clock) st

/-- LineWriter.write over a sequence of chunks. -/
def lineWriteChunks (cfg : WriterCfg) (clock : Nat → Nat) (st : LineSt)
    (chunks : List (List Nat)) : LineSt :=
  chunks.foldl (lineWrite cfg clock) st

/-- State of class HexWriter.  The constructor defaults are
write_ascii = true and max_length = 16; main overrides them from the
command-line options --ascii and --hexbytes (the latter is an
arbitrary int, so max_length is modelled as an integer). -/
structure HexSt where
  w : WriterSt
  write_ascii : Bool
  current_line : List Nat
  current_length : Nat
  max_length : Int
  deriving DecidableEq

/-- Fresh HexWriter state with the given configuration. -/
def initHex (t0 : Nat) (wa : Bool) (ml : Int) : HexSt :=
  { w := initW t0, write_ascii := wa, current_line := [], current_length := 0,
    max_length := ml }

/-- The bytes kept by current_line.decode('ascii', errors='ignore'):
exactly the bytes below 128, each as the character with that code. -/
def asciiDecodeIgnore (bs : List Nat) : List Char :=
  (bs.filter (fun b => b < 128)).map Char.ofNat

/-- Result of str.replace(c, '') on a character list. -/
def removeAll (c : Char) (l : List Char) : List Char := l.filter (fun x => x ≠ c)

/-- The ASCII-gutter text of a row, as computed by
HexWriter.__write_ascii: ascii-decode with errors ignored, then remove
every line feed, then every carriage return. -/
def gutterText (bs : List Nat) : List Char :=
  removeAll '\r' (removeAll '\n' (asciiDecodeIgnore bs))

/-- Padding written for a short row: "   " repeated k times. -/
def padChars (k : Int) : List Char := List.replicate (3 * k.toNat) ' '

/-- HexWriter.__write_ascii: flush the current row.  With write_ascii,
pad a short row, emit the ASCII gutter as a metadata line and clear
the accumulated bytes; otherwise write a bare line break.  (The
caller, not this method, resets current_length.) -/
def writeAscii (cfg : WriterCfg) (st : HexSt) : HexSt :=
  if st.write_ascii = true then
    let st1 := if (st.current_length : Int) < st.max_length then
        { st with
          w := wwrite cfg Tag.padding (padChars (st.max_length - (st.current_length : Int))) st.w }
      else st
    let st2 := { st1 with w := wmeta cfg (gutterText st1.current_line) st1.w }
    { st2 with current_line := [] }
  else
    { st with w := wwrite cfg Tag.rowBreak ['\n'] st.w }

/-- Uppercase hex digit as produced by the "%02X" format. -/
def hexDigit (n : Nat) : Char := Char.ofNat (if n < 10 then 48 + n else 55 + n)

/-- The text "%02X " % b written for one byte. -/
def hexPair (b : Nat) : List Char := [hexDigit (b / 16), hexDigit (b % 16), ' ']

/-- Body of the per-byte loop of HexWriter.write: row-leading
timestamp, the hex pair, accumulation for the gutter, column count
increment and the full-row flush. -/
def hexWriteByte (cfg : WriterCfg) (clock : Nat → Nat) (st : HexSt) (b : Nat) : HexSt :=
  let st1 := if st.current_length = 0 then { st with w := wtimestamp cfg clock st.w } else st
  let st2 := { st1 with w := wwrite cfg Tag.data (hexPair b) st1.w }
  let st3 := if st2.write_ascii = true then
      { st2 with current_line := st2.current_line ++ [b] }
    else st2
  let st4 := { st3 with current_length := st3.current_length + 1 }
  if (st4.current_length : Int) = st4.max_length then
    { writeAscii cfg st4 with current_length := 0 }
  else st4

/-- HexWriter.write over one chunk. -/
def hexWrite (cfg : WriterCfg) (clock : Nat → Nat) (st : HexSt) (bs : List Nat) : HexSt :=
  bs.foldl (hexWriteByte cfg clock) st

/-- HexWriter.write over a sequence of chunks. -/
def hexWriteChunks (cfg : WriterCfg) (clock : Nat → Nat) (st : HexSt)
    (chunks : List (List Nat)) : HexSt :=
  chunks.foldl (hexWrite cfg clock) st

/-- HexWriter.__del__: flush the current row, unconditionally. -/
def hexDel (cfg : WriterCfg) (st : HexSt) : HexSt := writeAscii cfg st

/-- Lower bound for the second byte of a multi-byte UTF-8 sequence
(the E0/F0 leads exclude overlong encodings). -/
def utf8Lo2 (b : Nat) : Nat := if b = 224 then 160 else if b = 240 then 144 else 128

/-- Upper bound for the second byte of a multi-byte UTF-8 sequence
(the ED lead excludes surrogates, the F4 lead caps at U+10FFFF). -/
def utf8Hi2 (b : Nat) : Nat := if b = 237 then 159 else if b = 244 then 143 else 191

/-- Model of bytes.decode('utf-8', errors='ignore'): decode valid
sequences, drop the maximal invalid subpart on error and continue at
the next undecoded byte, drop a truncated sequence at end of input. -/
def utf8DecodeIgnore : List Nat → List Char
  | [] => []
  | b :: bs =>
    if b < 128 then Char.ofNat b :: utf8DecodeIgnore bs
    else if 194 ≤ b ∧ b ≤ 223 then
      match bs with
      | [] => []
      | b2 :: rest =>
        if 128 ≤ b2 ∧ b2 ≤ 191 then
          Char.ofNat ((b - 192) * 64 + (b2 - 128)) :: utf8DecodeIgnore rest
        else utf8DecodeIgnore (b2 :: rest)
    else if 224 ≤ b ∧ b ≤ 239 then
      match bs with
      | [] => []
      | b2 :: rest2 =>
        if utf8Lo2 b ≤ b2 ∧ b2 ≤ utf8Hi2 b then
          match rest2 with
          | [] => []
          | b3 :: rest =>
            if 128 ≤ b3 ∧ b3 ≤ 191 then
              Char.ofNat ((b - 224) * 4096 + (b2 - 128) * 64 + (b3 - 128)) ::
                utf8DecodeIgnore rest
            else utf8DecodeIgnore (b3 :: rest)
        else utf8DecodeIgnore (b2 :: rest2)
    else if 240 ≤ b ∧ b ≤ 244 then
      match bs with
      | [] => []
      | b2 :: rest2 =>
        if utf8Lo2 b ≤ b2 ∧ b2 ≤ utf8Hi2 b then
          match rest2 with
          | [] => []
          | b3 :: rest3 =>
            if 128 ≤ b3 ∧ b3 ≤ 191 then
              match rest3 with
              | [] => []
              | b4 :: rest =>
                if 128 ≤ b4 ∧ b4 ≤ 191 then
                  Char.ofNat
                      ((b - 240) * 262144 + (b2 - 128) * 4096 + (b3 - 128) * 64 + (b4 - 128)) ::
                    utf8DecodeIgnore rest
                else utf8DecodeIgnore (b4 :: rest)
            else utf8DecodeIgnore (b3 :: rest3)
        else utf8DecodeIgnore (b2 :: rest2)
    else utf8DecodeIgnore bs
termination_by l => l.length
decreasing_by all_goals simp_wf <;> omega

/-- RawWriter.write: decode the chunk (best effort) and pass the text
to the base writer. -/
def rawWrite (cfg : WriterCfg) (st : WriterSt) (bs : List Nat) : WriterSt :=
  wwrite cfg Tag.raw (utf8DecodeIgnore bs) st

/-- RawWriter.write over a sequence of chunks. -/
def rawWriteChunks (cfg : WriterCfg) (st : WriterSt) (chunks : List (List Nat)) : WriterSt :=
  chunks.foldl (rawWrite cfg) st

/-- The three formatter variants selected by the --format option. -/
inductive Variant
  | raw
  | line
  | hex

/-- Feed a chunk sequence through a freshly constructed formatter of
the given variant and configuration (wa and ml are the hex-only
options --ascii and --hexbytes) and return the final writer state. -/
def runVariant (v : Variant) (cfg : WriterCfg) (clock : Nat → Nat) (wa : Bool) (ml : Int)
    (t0 : Nat) (chunks : List (List Nat)) : WriterSt :=
  match v with
  | Variant.raw => rawWriteChunks cfg (initW t0) chunks
  | Variant.line => (lineWriteChunks cfg clock (initLine t0) chunks).w
  | Variant.hex => (hexWriteChunks cfg clock (initHex t0 wa ml) chunks).w

/-- Outcome of one call to serial.Serial in open_port.  The kind flag
notPresent records whether the failure was of the device-not-present
kind; open_port cannot observe it, which is the point of claim C3. -/
inductive OpenResult
  | ok
  | osErr (notPresent : Bool)
  | serialErr (notPresent : Bool)
  deriving DecidableEq

/-- open_port: any OSError and any SerialException are both caught and
collapsed to None; a successful open returns the stream. -/
def open_port : OpenResult → Option Unit
  | OpenResult.ok => some ()
  | OpenResult.osErr _ => none
  | OpenResult.serialErr _ => none

/-- Result of the connection loop of main: connected after n open
attempts, fatally failed after n attempts ("Failed to connect",
exit 1), or still waiting when the modelled outcome sequence ran out
(the real loop would keep retrying). -/
inductive ConnectResult
  | connected (attempts : Nat)
  | fatal (attempts : Nat)
  | stillWaiting
  deriving DecidableEq

/-- The while-loop of main around open_port: break once open_port
returns a stream or when wait is off; otherwise print a progress dot,
sleep and retry.  A loop exit with no stream is fatal. -/
def connectLoop (wait : Bool) : List OpenResult → ConnectResult
  | [] => ConnectResult.stillWaiting
  | r :: rs =>
    match open_port r with
    | some _ => ConnectResult.connected 1
    | none =>
      if wait then
        match connectLoop wait rs with
        | ConnectResult.connected n => ConnectResult.connected (n + 1)
        | ConnectResult.fatal n => ConnectResult.fatal (n + 1)
        | ConnectResult.stillWaiting => ConnectResult.stillWaiting
      else ConnectResult.fatal 1

/-- Hex-pair tokens of a primary trace (the byte payload writes of
HexWriter.write), in order. -/
def dataToks (tr : List (Tag × List Char)) : List (List Char) :=
  (tr.filter (fun p => p.1 = Tag.data)).map Prod.snd

/-- Metadata-line tokens of a primary trace, in order. -/
def metaToks (tr : List (Tag × List Char)) : List (List Char) :=
  (tr.filter (fun p => p.1 = Tag.meta)).map Prod.snd

/-- Number of timestamp markers in a primary trace. -/
def tsCount (tr : List (Tag × List Char)) : Nat :=
  (tr.filter (fun p => p.1 = Tag.ts)).length

/-- Number of bare row breaks in a primary trace. -/
def rowBreakCount (tr : List (Tag × List Char)) : Nat :=
  (tr.filter (fun p => p.1 = Tag.rowBreak)).length

/-- Row structure of a primary trace: scanning left to right, count
byte entries (data tokens) per row, where a metadata line or a bare
row break terminates the current row; returns the entry counts of the
terminated rows and of the trailing unterminated row. -/
def rowScan : List (Tag × List Char) → Nat → List Nat × Nat
  | [], cur => ([], cur)
  | (Tag.data, _) :: tr, cur => rowScan tr (cur + 1)
  | (Tag.meta, _) :: tr, cur =>
    let r := rowScan tr 0
    (cur :: r.1, r.2)
  | (Tag.rowBreak, _) :: tr, cur =>
    let r := rowScan tr 0
    (cur :: r.1, r.2)
  | _ :: tr, cur => rowScan tr cur

/-- Value of an uppercase hex digit character, if it is one. -/
def hexVal (c : Char) : Option Nat :=
  if '0' ≤ c ∧ c ≤ '9' then some (c.toNat - 48)
  else if 'A' ≤ c ∧ c ≤ 'F' then some (c.toNat - 55)
  else none

/-- Parse one emitted hex-pair token back to its byte: two hex digits
followed by the separating space. -/
def parsePair (l : List Char) : Option Nat :=
  match l with
  | [h, lo, sp] =>
    if sp = ' ' then
      match hexVal h, hexVal lo with
      | some a, some b => some (16 * a + b)
      | _, _ => none
    else none
  | _ => none

/-- Parse every emitted hex-pair token, failing if any token is not a
well-formed pair. -/
def parseAll : List (List Char) → Option (List Nat)
  | [] => some []
  | t :: ts =>
    match parsePair t, parseAll ts with
    | some b, some bs => some (b :: bs)
    | _, _ => none

/-- De-hex the data tokens of a primary trace back to a byte list. -/
def decodeData (tr : List (Tag × List Char)) : Option (List Nat) :=
  parseAll (dataToks tr)

/-- One step of the fixed-width row grouping: append the byte to the
open row and close the row when it reaches m entries. -/
def rowStep (m : Nat) (acc : List (List Nat) × List Nat) (b : Nat) : List (List Nat) × List Nat :=
  let cur := acc.2 ++ [b]
  if cur.length = m then (acc.1 ++ [cur], []) else (acc.1, cur)

/-- Fixed-width row grouping from a given accumulator. -/
def rowAccFrom (m : Nat) (acc : List (List Nat) × List Nat) (bs : List Nat) :
    List (List Nat) × List Nat :=
  bs.foldl (rowStep m) acc

/-- Specification of the fixed-width row grouping: fold the byte list,
closing a row whenever it reaches m entries; returns the closed rows
and the trailing partial row. -/
def rowAcc (m : Nat) (bs : List Nat) : List (List Nat) × List Nat :=
  rowAccFrom m ([], []) bs

/-- State machine of ANSI color-code removal: outside an escape
sequence (state false) copy characters, entering at ESC; inside
(state true) skip until the terminating m. -/
def stripAux : Bool → List Char → List Char
  | _, [] => []
  | false, c :: cs => if c = '\x1b' then stripAux true cs else c :: stripAux false cs
  | true, c :: cs => if c = 'm' then stripAux false cs else stripAux true cs

/-- Final state of the color-removal scan. -/
def stripEnd : Bool → List Char → Bool
  | b, [] => b
  | false, c :: cs => stripEnd (if c = '\x1b' then true else false) cs
  | true, c :: cs => stripEnd (if c = 'm' then false else true) cs

/-- Remove ANSI color codes from text. -/
def stripColor (l : List Char) : List Char := stripAux false l

/-- A Writer operation whose payload contains no raw ESC byte of its
own (the decoded device data could otherwise itself look like a color
code). -/
def opEscFree : WOp → Prop
  | WOp.write _ s => '\x1b' ∉ s
  | WOp.meta s => '\x1b' ∉ s
  | WOp.timestamp => True

instance decOpEscFree : (op : WOp) → Decidable (opEscFree op)
  | WOp.write _ s => inferInstanceAs (Decidable ('\x1b' ∉ s))
  | WOp.meta s => inferInstanceAs (Decidable ('\x1b' ∉ s))
  | WOp.timestamp => inferInstanceAs (Decidable True)

/-- Replace the clock sample index of a writer state (used to compare
runs of two formatter instances that start at different points of the
ambient clock). -/
def setTicks (t : Nat) (w : WriterSt) : WriterSt := { w with ticks := t }

/-!
Basic facts about the writer operations and the trace extractors.
-/

@[simp]
theorem wlog_primary (cfg : WriterCfg) (s : List Char) (st : WriterSt) :
    (wlog cfg s st).primary = st.primary := by
  unfold wlog; split <;> rfl

@[simp]
theorem wlog_ticks (cfg : WriterCfg) (s : List Char) (st : WriterSt) :
    (wlog cfg s st).ticks = st.ticks := by
  unfold wlog; split <;> rfl

@[simp]
theorem wlog_warnings (cfg : WriterCfg) (s : List Char) (st : WriterSt) :
    (wlog cfg s st).warnings = st.warnings := by
  unfold wlog; split <;> rfl

theorem wlog_log (cfg : WriterCfg) (s : List Char) (st : WriterSt) :
    (wlog cfg s st).log =
      if cfg.has_log = true ∧ cfg.log_closed = false then st.log ++ [s] else st.log := by
  unfold wlog; split <;> rfl

@[simp]
theorem wwrite_primary (cfg : WriterCfg) (g : Tag) (s : List Char) (st : WriterSt) :
    (wwrite cfg g s st).primary = st.primary ++ [(g, s)] := by
  simp [wwrite]

@[simp]
theorem wwrite_ticks (cfg : WriterCfg) (g : Tag) (s : List Char) (st : WriterSt) :
    (wwrite cfg g s st).ticks = st.ticks := by
  simp [wwrite]

@[simp]
theorem wwrite_warnings (cfg : WriterCfg) (g : Tag) (s : List Char) (st : WriterSt) :
    (wwrite cfg g s st).warnings = st.warnings := by
  simp [wwrite]

@[simp]
theorem wmeta_primary (cfg : WriterCfg) (s : List Char) (st : WriterSt) :
    (wmeta cfg s st).primary = st.primary ++ [(Tag.meta, metaRendered cfg s)] := by
  simp [wmeta]

@[simp]
theorem wmeta_ticks (cfg : WriterCfg) (s : List Char) (st : WriterSt) :
    (wmeta cfg s st).ticks = st.ticks := by
  simp [wmeta]

@[simp]
theorem wmeta_warnings (cfg : WriterCfg) (s : List Char) (st : WriterSt) :
    (wmeta cfg s st).warnings = st.warnings := by
  simp [wmeta]

theorem wtimestamp_off (cfg : WriterCfg) (clock : Nat → Nat) (st : WriterSt)
    (h : cfg.add_timestamp = false) : wtimestamp cfg clock st = st := by
  simp [wtimestamp, h]

theorem wtimestamp_primary (cfg : WriterCfg) (clock : Nat → Nat) (st : WriterSt) :
    (wtimestamp cfg clock st).primary =
      st.primary ++
        (if cfg.add_timestamp = true then [(Tag.ts, tsRendered cfg (clock st.ticks))] else []) := by
  unfold wtimestamp; split <;> simp

theorem wtimestamp_warnings (cfg : WriterCfg) (clock : Nat → Nat) (st : WriterSt) :
    (wtimestamp cfg clock st).warnings = st.warnings := by
  unfold wtimestamp; split <;> simp

@[simp]
theorem dataToks_append (a b : List (Tag × List Char)) :
    dataToks (a ++ b) = dataToks a ++ dataToks b := by
  simp [dataToks]

@[simp]
theorem metaToks_append (a b : List (Tag × List Char)) :
    metaToks (a ++ b) = metaToks a ++ metaToks b := by
  simp [metaToks]

@[simp]
theorem tsCount_append (a b : List (Tag × List Char)) :
    tsCount (a ++ b) = tsCount a + tsCount b := by
  simp [tsCount]

@[simp]
theorem rowBreakCount_append (a b : List (Tag × List Char)) :
    rowBreakCount (a ++ b) = rowBreakCount a + rowBreakCount b := by
  simp [rowBreakCount]

theorem rowScan_append (a b : List (Tag × List Char)) (c : Nat) :
    rowScan (a ++ b) c =
      ((rowScan a c).1 ++ (rowScan b (rowScan a c).2).1, (rowScan b (rowScan a c).2).2) := by
  induction a generalizing c with
  | nil => simp [rowScan]
  | cons hd tl ih =>
    obtain ⟨g, s⟩ := hd
    cases g <;> simp [rowScan, ih]

@[simp]
theorem dataToks_nil : dataToks [] = [] := rfl

@[simp]
theorem dataToks_single_data (s : List Char) : dataToks [(Tag.data, s)] = [s] := rfl

@[simp]
theorem dataToks_single_chr (s : List Char) : dataToks [(Tag.chr, s)] = [] := rfl

@[simp]
theorem dataToks_single_padding (s : List Char) : dataToks [(Tag.padding, s)] = [] := rfl

@[simp]
theorem dataToks_single_rowBreak (s : List Char) : dataToks [(Tag.rowBreak, s)] = [] := rfl

@[simp]
theorem dataToks_single_meta (s : List Char) : dataToks [(Tag.meta, s)] = [] := rfl

@[simp]
theorem dataToks_single_ts (s : List Char) : dataToks [(Tag.ts, s)] = [] := rfl

@[simp]
theorem metaToks_nil : metaToks [] = [] := rfl

@[simp]
theorem metaToks_single_data (s : List Char) : metaToks [(Tag.data, s)] = [] := rfl

@[simp]
theorem metaToks_single_chr (s : List Char) : metaToks [(Tag.chr, s)] = [] := rfl

@[simp]
theorem metaToks_single_padding (s : List Char) : metaToks [(Tag.padding, s)] = [] := rfl

@[simp]
theorem metaToks_single_rowBreak (s : List Char) : metaToks [(Tag.rowBreak, s)] = [] := rfl

@[simp]
theorem metaToks_single_meta (s : List Char) : metaToks [(Tag.meta, s)] = [s] := rfl

@[simp]
theorem metaToks_single_ts (s : List Char) : metaToks [(Tag.ts, s)] = [] := rfl

@[simp]
theorem tsCount_nil : tsCount [] = 0 := rfl

@[simp]
theorem tsCount_single_data (s : List Char) : tsCount [(Tag.data, s)] = 0 := rfl

@[simp]
theorem tsCount_single_chr (s : List Char) : tsCount [(Tag.chr, s)] = 0 := rfl

@[simp]
theorem tsCount_single_padding (s : List Char) : tsCount [(Tag.padding, s)] = 0 := rfl

@[simp]
theorem tsCount_single_rowBreak (s : List Char) : tsCount [(Tag.rowBreak, s)] = 0 := rfl

@[simp]
theorem tsCount_single_meta (s : List Char) : tsCount [(Tag.meta, s)] = 0 := rfl

@[simp]
theorem tsCount_single_ts (s : List Char) : tsCount [(Tag.ts, s)] = 1 := rfl

@[simp]
theorem rowBreakCount_nil : rowBreakCount [] = 0 := rfl

@[simp]
theorem rowBreakCount_single_data (s : List Char) : rowBreakCount [(Tag.data, s)] = 0 := rfl

@[simp]
theorem rowBreakCount_single_padding (s : List Char) : rowBreakCount [(Tag.padding, s)] = 0 := rfl

@[simp]
theorem rowBreakCount_single_rowBreak (s : List Char) : rowBreakCount [(Tag.rowBreak, s)] = 1 := rfl

@[simp]
theorem rowBreakCount_single_meta (s : List Char) : rowBreakCount [(Tag.meta, s)] = 0 := rfl

@[simp]
theorem rowBreakCount_single_ts (s : List Char) : rowBreakCount [(Tag.ts, s)] = 0 := rfl

@[simp]
theorem rowScan_nil (c : Nat) : rowScan [] c = ([], c) := rfl

@[simp]
theorem rowScan_single_data (s : List Char) (c : Nat) : rowScan [(Tag.data, s)] c = ([], c + 1) :=
  rfl

@[simp]
theorem rowScan_single_padding (s : List Char) (c : Nat) : rowScan [(Tag.padding, s)] c = ([], c) :=
  rfl

@[simp]
theorem rowScan_single_rowBreak (s : List Char) (c : Nat) :
    rowScan [(Tag.rowBreak, s)] c = ([c], 0) := rfl

@[simp]
theorem rowScan_single_meta (s : List Char) (c : Nat) : rowScan [(Tag.meta, s)] c = ([c], 0) := rfl

@[simp]
theorem rowScan_single_ts (s : List Char) (c : Nat) : rowScan [(Tag.ts, s)] c = ([], c) := rfl

theorem hexWriteChunks_eq_flatten (cfg : WriterCfg) (clock : Nat → Nat) (st : HexSt)
    (chunks : List (List Nat)) :
    hexWriteChunks cfg clock st chunks = hexWrite cfg clock st chunks.flatten := by
  induction chunks generalizing st with
  | nil => rfl
  | cons ch tl ih =>
    simp only [hexWriteChunks, hexWrite, List.foldl_cons, List.flatten_cons, List.foldl_append]
    exact ih (hexWrite cfg clock st ch)

theorem lineWriteChunks_eq_flatten (cfg : WriterCfg) (clock : Nat → Nat) (st : LineSt)
    (chunks : List (List Nat)) :
    lineWriteChunks cfg clock st chunks = lineWrite cfg clock st chunks.flatten := by
  induction chunks generalizing st with
  | nil => rfl
  | cons ch tl ih =>
    simp only [lineWriteChunks, lineWrite, List.foldl_cons, List.flatten_cons, List.foldl_append]
    exact ih (lineWrite cfg clock st ch)

@[simp]
theorem dataToks_cons (g : Tag) (s : List Char) (tr : List (Tag × List Char)) :
    dataToks ((g, s) :: tr) = if g = Tag.data then s :: dataToks tr else dataToks tr := by
  by_cases h : g = Tag.data <;> simp [dataToks, List.filter_cons, h]

@[simp]
theorem metaToks_cons (g : Tag) (s : List Char) (tr : List (Tag × List Char)) :
    metaToks ((g, s) :: tr) = if g = Tag.meta then s :: metaToks tr else metaToks tr := by
  by_cases h : g = Tag.meta <;> simp [metaToks, List.filter_cons, h]

@[simp]
theorem tsCount_cons (g : Tag) (s : List Char) (tr : List (Tag × List Char)) :
    tsCount ((g, s) :: tr) = (if g = Tag.ts then 1 else 0) + tsCount tr := by
  by_cases h : g = Tag.ts <;> simp [tsCount, List.filter_cons, h, Nat.add_comm]

@[simp]
theorem rowBreakCount_cons (g : Tag) (s : List Char) (tr : List (Tag × List Char)) :
    rowBreakCount ((g, s) :: tr) =
      (if g = Tag.rowBreak then 1 else 0) + rowBreakCount tr := by
  by_cases h : g = Tag.rowBreak <;> simp [rowBreakCount, List.filter_cons, h, Nat.add_comm]

@[simp]
theorem dataToks_tsOpt (P : Prop) [Decidable P] (x : List Char) :
    dataToks (if P then [(Tag.ts, x)] else []) = [] := by
  split <;> rfl

@[simp]
theorem metaToks_tsOpt (P : Prop) [Decidable P] (x : List Char) :
    metaToks (if P then [(Tag.ts, x)] else []) = [] := by
  split <;> rfl

@[simp]
theorem rowBreakCount_tsOpt (P : Prop) [Decidable P] (x : List Char) :
    rowBreakCount (if P then [(Tag.ts, x)] else []) = 0 := by
  split <;> rfl

@[simp]
theorem rowScan_tsOpt (P : Prop) [Decidable P] (x : List Char) (c : Nat) :
    rowScan (if P then [(Tag.ts, x)] else []) c = ([], c) := by
  split <;> rfl

@[simp]
theorem tsCount_tsOpt (P : Prop) [Decidable P] (x : List Char) :
    tsCount (if P then [(Tag.ts, x)] else []) = if P then 1 else 0 := by
  split <;> rfl

theorem wtimestamp_primary_delta (cfg : WriterCfg) (clock : Nat → Nat) (st : WriterSt) :
    (wtimestamp cfg clock st).primary =
      st.primary ++
        (if cfg.add_timestamp = true then [(Tag.ts, tsRendered cfg (clock st.ticks))] else []) := by
  rw [wtimestamp_primary]

theorem writeAscii_fields (cfg : WriterCfg) (st : HexSt) :
    (writeAscii cfg st).current_length = st.current_length ∧
    (writeAscii cfg st).max_length = st.max_length ∧
    (writeAscii cfg st).write_ascii = st.write_ascii := by
  simp only [writeAscii]
  split_ifs <;> simp

theorem writeAscii_dataToks (cfg : WriterCfg) (st : HexSt) :
    dataToks (writeAscii cfg st).w.primary = dataToks st.w.primary := by
  simp only [writeAscii]
  split_ifs <;> simp

theorem hexWriteByte_dataToks (cfg : WriterCfg) (clock : Nat → Nat) (st : HexSt) (b : Nat) :
    dataToks (hexWriteByte cfg clock st b).w.primary = dataToks st.w.primary ++ [hexPair b] := by
  simp only [hexWriteByte]
  split_ifs <;>
    simp [writeAscii_dataToks, wtimestamp_primary_delta]

theorem hexWrite_dataToks (cfg : WriterCfg) (clock : Nat → Nat) (st : HexSt) (bs : List Nat) :
    dataToks (hexWrite cfg clock st bs).w.primary =
      dataToks st.w.primary ++ bs.map hexPair := by
  induction bs generalizing st with
  | nil => simp [hexWrite]
  | cons b tl ih =>
    have : hexWrite cfg clock st (b :: tl) = hexWrite cfg clock (hexWriteByte cfg clock st b) tl :=
      rfl
    rw [this, ih, hexWriteByte_dataToks]
    simp

theorem hexVal_hexDigit : ∀ n < 16, hexVal (hexDigit n) = some n := by decide

theorem parsePair_hexPair (b : Nat) (h : b < 256) : parsePair (hexPair b) = some b := by
  have h1 := hexVal_hexDigit (b / 16) (by omega)
  have h2 := hexVal_hexDigit (b % 16) (by omega)
  have h3 : 16 * (b / 16) + b % 16 = b := by omega
  simp only [hexPair, parsePair, h1, h2, h3]
  simp

theorem parseAll_hexPair (bs : List Nat) (h : ∀ b ∈ bs, b < 256) :
    parseAll (bs.map hexPair) = some bs := by
  induction bs with
  | nil => rfl
  | cons b tl ih =>
    have hb : b < 256 := h b (by simp)
    have htl : ∀ x ∈ tl, x < 256 := fun x hx => h x (by simp [hx])
    simp [parseAll, parsePair_hexPair b hb, ih htl]

theorem hexWriteByte_nonpos_max (cfg : WriterCfg) (clock : Nat → Nat) (st : HexSt) (b : Nat)
    (hml : st.max_length ≤ 0) :
    (hexWriteByte cfg clock st b).current_length = st.current_length + 1 ∧
    (hexWriteByte cfg clock st b).max_length = st.max_length ∧
    (hexWriteByte cfg clock st b).write_ascii = st.write_ascii ∧
    metaToks (hexWriteByte cfg clock st b).w.primary = metaToks st.w.primary ∧
    rowBreakCount (hexWriteByte cfg clock st b).w.primary = rowBreakCount st.w.primary := by
  simp only [hexWriteByte]
  split_ifs <;>
    first
      | (exfalso; rename_i hflush; simp only [] at hflush; omega)
      | simp [wtimestamp_primary_delta]

theorem hexWrite_nonpos_max (cfg : WriterCfg) (clock : Nat → Nat) (st : HexSt) (bs : List Nat)
    (hml : st.max_length ≤ 0) :
    (hexWrite cfg clock st bs).current_length = st.current_length + bs.length ∧
    (hexWrite cfg clock st bs).max_length = st.max_length ∧
    metaToks (hexWrite cfg clock st bs).w.primary = metaToks st.w.primary ∧
    rowBreakCount (hexWrite cfg clock st bs).w.primary = rowBreakCount st.w.primary := by
  induction bs generalizing st with
  | nil => simp [hexWrite]
  | cons b tl ih =>
    have hstep := hexWriteByte_nonpos_max cfg clock st b hml
    have : hexWrite cfg clock st (b :: tl) = hexWrite cfg clock (hexWriteByte cfg clock st b) tl :=
      rfl
    rw [this]
    have ihx := ih (hexWriteByte cfg clock st b) (by rw [hstep.2.1]; exact hml)
    refine ⟨?_, ?_, ?_, ?_⟩
    · rw [ihx.1, hstep.1]; simp; omega
    · rw [ihx.2.1, hstep.2.1]
    · rw [ihx.2.2.1, hstep.2.2.2.1]
    · rw [ihx.2.2.2, hstep.2.2.2.2]

theorem connectLoop_true_ne_fatal : ∀ (rs : List OpenResult) (n : Nat),
    connectLoop true rs ≠ ConnectResult.fatal n := by
  intro rs
  induction rs with
  | nil => intro n h; exact ConnectResult.noConfusion h
  | cons r tl ih =>
    intro n h
    unfold connectLoop at h
    cases hr : open_port r with
    | some u => rw [hr] at h; exact ConnectResult.noConfusion h
    | none =>
      rw [hr] at h
      simp only [if_pos rfl] at h
      cases hm : connectLoop true tl with
      | connected m => rw [hm] at h; exact ConnectResult.noConfusion h
      | fatal m => exact ih m hm
      | stillWaiting => rw [hm] at h; exact ConnectResult.noConfusion h

set_option maxRecDepth 4000 in
theorem charOfNat_eq_lf : ∀ b < 256, (Char.ofNat b = '\n' ↔ b = 10) := by decide

theorem filter_lf_eq_count (bs : List Nat) (h : ∀ b ∈ bs, b < 256) :
    (bs.filter (fun b => Char.ofNat b = '\n')).length = bs.count 10 := by
  induction bs with
  | nil => rfl
  | cons b tl ih =>
    have hb : b < 256 := h b (by simp)
    have htl : ∀ x ∈ tl, x < 256 := fun x hx => h x (by simp [hx])
    rw [List.filter_cons, List.count_cons]
    by_cases hlf : Char.ofNat b = '\n'
    · have : b = 10 := (charOfNat_eq_lf b hb).1 hlf
      simp [hlf, this, ih htl]
    · have : ¬b = 10 := fun hx => hlf ((charOfNat_eq_lf b hb).2 hx)
      simp [hlf, this, ih htl]

theorem head?_append_of_ne_nil {α : Type} (p q : List α) (h : p ≠ []) :
    (p ++ q).head? = p.head? := by
  cases p with
  | nil => exact absurd rfl h
  | cons a tl => rfl

theorem lineWriteByte_notFirst (cfg : WriterCfg) (clock : Nat → Nat) (st : LineSt) (b : Nat)
    (hts : cfg.add_timestamp = true) (hf : st.first = false) :
    (lineWriteByte cfg clock st b).first = false ∧
    tsCount (lineWriteByte cfg clock st b).w.primary =
      tsCount st.w.primary + (if Char.ofNat b = '\n' then 1 else 0) ∧
    (st.w.primary ≠ [] →
      (lineWriteByte cfg clock st b).w.primary.head? = st.w.primary.head?) := by
  simp only [lineWriteByte, hf, Bool.false_eq_true, if_false]
  have hone : ∀ (x : Tag × List Char) (q : List (Tag × List Char)),
      st.w.primary ≠ [] → ((st.w.primary ++ [x]) ++ q).head? = st.w.primary.head? := by
    intro x q hp
    rw [head?_append_of_ne_nil (st.w.primary ++ [x]) q (by simp),
      head?_append_of_ne_nil st.w.primary [x] hp]
  split_ifs with h1
  · refine ⟨rfl, ?_, ?_⟩
    · simp [wtimestamp_primary_delta, hts]
    · intro hp
      simp only [wtimestamp_primary_delta, hts, if_pos rfl, wwrite_primary, wwrite_ticks]
      exact hone _ _ hp
  · refine ⟨rfl, ?_, ?_⟩
    · simp
    · intro hp
      simp only [wwrite_primary]
      have := hone (Tag.chr, [Char.ofNat b]) [] hp
      simpa using this

theorem lineWriteByte_first (cfg : WriterCfg) (clock : Nat → Nat) (st : LineSt) (b : Nat)
    (hts : cfg.add_timestamp = true) (hf : st.first = true) (hp : st.w.primary = []) :
    (lineWriteByte cfg clock st b).first = false ∧
    tsCount (lineWriteByte cfg clock st b).w.primary =
      1 + (if Char.ofNat b = '\n' then 1 else 0) ∧
    (lineWriteByte cfg clock st b).w.primary.head?.map Prod.fst = some Tag.ts := by
  simp only [lineWriteByte, hf, if_pos rfl]
  split_ifs with h1 <;>
    simp_all [wtimestamp_primary_delta, hts, hp]

theorem lineWrite_notFirst (cfg : WriterCfg) (clock : Nat → Nat) (hts : cfg.add_timestamp = true) :
    ∀ (bs : List Nat) (st : LineSt), st.first = false → st.w.primary ≠ [] →
      (lineWrite cfg clock st bs).first = false ∧
      tsCount (lineWrite cfg clock st bs).w.primary =
        tsCount st.w.primary + (bs.filter (fun b => Char.ofNat b = '\n')).length ∧
      (lineWrite cfg clock st bs).w.primary.head? = st.w.primary.head? := by
  intro bs
  induction bs with
  | nil => intro st hf hp; exact ⟨hf, by simp [lineWrite], rfl⟩
  | cons b tl ih =>
    intro st hf hp
    have hstep := lineWriteByte_notFirst cfg clock st b hts hf
    have hrw : lineWrite cfg clock st (b :: tl) =
        lineWrite cfg clock (lineWriteByte cfg clock st b) tl := rfl
    have hp1 : (lineWriteByte cfg clock st b).w.primary ≠ [] := by
      intro hx
      have := hstep.2.2 hp
      rw [hx] at this
      cases hy : st.w.primary with
      | nil => exact hp hy
      | cons a t => rw [hy] at this; exact Option.noConfusion this
    have ihx := ih (lineWriteByte cfg clock st b) hstep.1 hp1
    rw [hrw]
    refine ⟨ihx.1, ?_, ?_⟩
    · rw [ihx.2.1, hstep.2.1, List.filter_cons]
      by_cases hlf : Char.ofNat b = '\n' <;> simp [hlf] <;> omega
    · rw [ihx.2.2, hstep.2.2 hp]

theorem rowAccFrom_cons (m : Nat) (acc : List (List Nat) × List Nat) (b : Nat) (tl : List Nat) :
    rowAccFrom m acc (b :: tl) = rowAccFrom m (rowStep m acc b) tl := rfl

theorem rowStep_eq (m : Nat) (R : List (List Nat)) (c : List Nat) (b : Nat) :
    rowStep m (R, c) b =
      if (c ++ [b]).length = m then (R ++ [c ++ [b]], []) else (R, c ++ [b]) := rfl

theorem rowAccFrom_shift (m : Nat) (bs : List Nat) : ∀ (R : List (List Nat)) (c : List Nat),
    rowAccFrom m (R, c) bs =
      (R ++ (rowAccFrom m ([], c) bs).1, (rowAccFrom m ([], c) bs).2) := by
  induction bs with
  | nil => intro R c; simp [rowAccFrom]
  | cons b tl ih =>
    intro R c
    rw [rowAccFrom_cons, rowAccFrom_cons, rowStep_eq, rowStep_eq]
    by_cases h : (c ++ [b]).length = m
    · rw [if_pos h, if_pos h]
      simp only [List.nil_append]
      rw [ih (R ++ [c ++ [b]]) [], ih [c ++ [b]] []]
      simp
    · rw [if_neg h, if_neg h, ih R (c ++ [b]), ih [] (c ++ [b])]

theorem rowAccFrom_rows (m : Nat) (hm : 1 ≤ m) (bs : List Nat) : ∀ c : List Nat, c.length < m →
    (∀ r ∈ (rowAccFrom m ([], c) bs).1, r.length = m) ∧
    ((rowAccFrom m ([], c) bs).2).length < m ∧
    ((rowAccFrom m ([], c) bs).1).flatten ++ (rowAccFrom m ([], c) bs).2 = c ++ bs := by
  induction bs with
  | nil =>
    intro c hc
    refine ⟨by simp [rowAccFrom], ?_, by simp [rowAccFrom]⟩
    simpa [rowAccFrom] using hc
  | cons b tl ih =>
    intro c hc
    rw [rowAccFrom_cons, rowStep_eq]
    by_cases h : (c ++ [b]).length = m
    · rw [if_pos h]
      simp only [List.nil_append]
      rw [rowAccFrom_shift m tl [c ++ [b]] []]
      have hx := ih [] (by simpa using hm)
      refine ⟨?_, by simpa using hx.2.1, ?_⟩
      · intro r hr
        simp only [List.mem_append, List.mem_singleton] at hr
        cases hr with
        | inl hr1 => rw [hr1]; exact h
        | inr hr2 => exact hx.1 r hr2
      · have := hx.2.2
        simp only [List.flatten_append, List.flatten_cons] at *
        simp at this
        simp [this]
    · rw [if_neg h]
      have hlen : (c ++ [b]).length < m := by
        simp only [List.length_append, List.length_singleton] at h ⊢
        omega
      have hx := ih (c ++ [b]) hlen
      refine ⟨hx.1, hx.2.1, by rw [hx.2.2]; simp⟩

theorem writeAscii_at_full (cfg : WriterCfg) (st : HexSt)
    (h : ¬((st.current_length : Int) < st.max_length)) :
    writeAscii cfg st =
      if st.write_ascii = true then
        { st with w := wmeta cfg (gutterText st.current_line) st.w, current_line := [] }
      else { st with w := wwrite cfg Tag.rowBreak ['\n'] st.w } := by
  by_cases hw : st.write_ascii = true
  · simp only [writeAscii, hw, if_pos rfl, if_neg h]
  · simp [writeAscii, hw]

theorem hexWriteByte_unfold (cfg : WriterCfg) (clock : Nat → Nat) (st : HexSt) (b : Nat) :
    hexWriteByte cfg clock st b =
      (if (((st.current_length + 1 : Nat) : Int) = st.max_length) then
        { writeAscii cfg
            { st with
              w := wwrite cfg Tag.data (hexPair b)
                (if st.current_length = 0 then wtimestamp cfg clock st.w else st.w),
              current_line :=
                if st.write_ascii = true then st.current_line ++ [b] else st.current_line,
              current_length := st.current_length + 1 } with
          current_length := 0 }
      else
        { st with
          w := wwrite cfg Tag.data (hexPair b)
            (if st.current_length = 0 then wtimestamp cfg clock st.w else st.w),
          current_line :=
            if st.write_ascii = true then st.current_line ++ [b] else st.current_line,
          current_length := st.current_length + 1 }) := by
  simp only [hexWriteByte]
  by_cases hA : st.current_length = 0 <;> by_cases hB : st.write_ascii = true <;>
    simp [hA, hB]

theorem hexWriteByte_step_noflush (cfg : WriterCfg) (clock : Nat → Nat) (m : Nat) (st : HexSt)
    (b : Nat) (cur : List Nat) (wa : Bool)
    (h1 : st.max_length = (m : Int)) (h2 : st.write_ascii = wa)
    (h3 : st.current_length = cur.length)
    (h4 : st.current_line = (if wa = true then cur else []))
    (hnf : cur.length + 1 ≠ m) :
    ∃ Δ, (hexWriteByte cfg clock st b).w.primary = st.w.primary ++ Δ ∧
      (hexWriteByte cfg clock st b).max_length = (m : Int) ∧
      (hexWriteByte cfg clock st b).write_ascii = wa ∧
      (hexWriteByte cfg clock st b).current_length = cur.length + 1 ∧
      (hexWriteByte cfg clock st b).current_line = (if wa = true then cur ++ [b] else []) ∧
      dataToks Δ = [hexPair b] ∧ metaToks Δ = [] ∧ rowBreakCount Δ = 0 ∧
      rowScan Δ cur.length = ([], cur.length + 1) := by
  have hcond : ¬(((st.current_length + 1 : Nat) : Int) = st.max_length) := by
    rw [h1, h3]
    intro hx
    exact hnf (by exact_mod_cast hx)
  rw [hexWriteByte_unfold, if_neg hcond]
  refine ⟨(if st.current_length = 0 then
      (if cfg.add_timestamp = true then [(Tag.ts, tsRendered cfg (clock st.w.ticks))] else [])
    else []) ++ [(Tag.data, hexPair b)], ?_, ?_, ?_, ?_, ?_, ?_, ?_, ?_, ?_⟩
  · by_cases hc : st.current_length = 0 <;>
      simp [hc, wtimestamp_primary_delta]
  · exact h1
  · exact h2
  · exact congrArg (fun x => x + 1) h3
  · show (if st.write_ascii = true then st.current_line ++ [b] else st.current_line) = _
    rw [h2, h4]
    by_cases hw : wa = true <;> simp [hw]
  · by_cases hc : st.current_length = 0 <;> simp [hc]
  · by_cases hc : st.current_length = 0 <;> simp [hc]
  · by_cases hc : st.current_length = 0 <;> simp [hc]
  · by_cases hc : st.current_length = 0 <;> simp [hc, rowScan_append, rowScan]

theorem hexWriteByte_step_flush (cfg : WriterCfg) (clock : Nat → Nat) (m : Nat) (st : HexSt)
    (b : Nat) (cur : List Nat) (wa : Bool)
    (h1 : st.max_length = (m : Int)) (h2 : st.write_ascii = wa)
    (h3 : st.current_length = cur.length)
    (h4 : st.current_line = (if wa = true then cur else []))
    (hf : cur.length + 1 = m) :
    ∃ Δ, (hexWriteByte cfg clock st b).w.primary = st.w.primary ++ Δ ∧
      (hexWriteByte cfg clock st b).max_length = (m : Int) ∧
      (hexWriteByte cfg clock st b).write_ascii = wa ∧
      (hexWriteByte cfg clock st b).current_length = 0 ∧
      (hexWriteByte cfg clock st b).current_line = [] ∧
      dataToks Δ = [hexPair b] ∧
      metaToks Δ = (if wa = true then [metaRendered cfg (gutterText (cur ++ [b]))] else []) ∧
      rowBreakCount Δ = (if wa = true then 0 else 1) ∧
      rowScan Δ cur.length = ([m], 0) := by
  have hcond : (((st.current_length + 1 : Nat) : Int) = st.max_length) := by
    rw [h1, h3, hf]
  rw [hexWriteByte_unfold, if_pos hcond]
  rw [writeAscii_at_full _ _
    (by show ¬(((st.current_length + 1 : Nat) : Int) < st.max_length)
        rw [h1, h3, hf]
        omega)]
  by_cases hw : wa = true
  · have hwa : st.write_ascii = true := by rw [h2, hw]
    have hline : st.current_line = cur := by rw [h4, if_pos hw]
    refine ⟨(if st.current_length = 0 then
        (if cfg.add_timestamp = true then [(Tag.ts, tsRendered cfg (clock st.w.ticks))] else [])
      else []) ++ [(Tag.data, hexPair b)] ++
        [(Tag.meta, metaRendered cfg (gutterText (cur ++ [b])))], ?_, ?_, ?_, ?_, ?_, ?_, ?_, ?_,
        ?_⟩
    · by_cases hc : st.current_length = 0 <;>
        simp [hwa, hc, hline, wtimestamp_primary_delta]
    · simp [hwa, h1]
    · simp [hwa]
      exact hw
    · simp [hwa]
    · simp [hwa]
    · by_cases hc : st.current_length = 0 <;> simp [hc]
    · by_cases hc : st.current_length = 0 <;> simp [hc, hw]
    · by_cases hc : st.current_length = 0 <;> simp [hc, hw]
    · by_cases hc : st.current_length = 0 <;>
        simp [hc, rowScan_append, rowScan, hf]
  · have hwa : st.write_ascii = false := by
      cases hz : st.write_ascii with
      | true => exact absurd (by rw [← h2, hz]) hw
      | false => rfl
    have hline : st.current_line = [] := by rw [h4, if_neg hw]
    refine ⟨(if st.current_length = 0 then
        (if cfg.add_timestamp = true then [(Tag.ts, tsRendered cfg (clock st.w.ticks))] else [])
      else []) ++ [(Tag.data, hexPair b)] ++ [(Tag.rowBreak, ['\n'])], ?_, ?_, ?_, ?_, ?_, ?_,
        ?_, ?_, ?_⟩
    · by_cases hc : st.current_length = 0 <;>
        simp [hwa, hc, wtimestamp_primary_delta]
    · simp [hwa, h1]
    · simp [hwa]
      cases wa with
      | true => exact absurd rfl hw
      | false => rfl
    · simp [hwa]
    · simp [hwa, hline]
    · by_cases hc : st.current_length = 0 <;> simp [hc]
    · by_cases hc : st.current_length = 0 <;> simp [hc, hw]
    · by_cases hc : st.current_length = 0 <;> simp [hc, hw]
    · by_cases hc : st.current_length = 0 <;>
        simp [hc, rowScan_append, rowScan, hf]

theorem hexWrite_run (cfg : WriterCfg) (clock : Nat → Nat) (m : Nat) (hm : 1 ≤ m) (wa : Bool)
    (bs : List Nat) : ∀ (st : HexSt) (cur : List Nat),
    st.max_length = (m : Int) → st.write_ascii = wa → st.current_length = cur.length →
    st.current_line = (if wa = true then cur else []) → cur.length < m →
    ∃ Δ, (hexWrite cfg clock st bs).w.primary = st.w.primary ++ Δ ∧
      (hexWrite cfg clock st bs).max_length = (m : Int) ∧
      (hexWrite cfg clock st bs).write_ascii = wa ∧
      (hexWrite cfg clock st bs).current_length = ((rowAccFrom m ([], cur) bs).2).length ∧
      (hexWrite cfg clock st bs).current_line =
        (if wa = true then (rowAccFrom m ([], cur) bs).2 else []) ∧
      dataToks Δ = bs.map hexPair ∧
      metaToks Δ = (if wa = true then
        ((rowAccFrom m ([], cur) bs).1).map (fun r => metaRendered cfg (gutterText r))
      else []) ∧
      rowBreakCount Δ = (if wa = true then 0 else (rowAccFrom m ([], cur) bs).1.length) ∧
      rowScan Δ cur.length =
        (((rowAccFrom m ([], cur) bs).1).map List.length,
          ((rowAccFrom m ([], cur) bs).2).length) := by
  induction bs with
  | nil =>
    intro st cur h1 h2 h3 h4 h5
    refine ⟨[], by simp [hexWrite], h1, h2, ?_, ?_, rfl, ?_, ?_, ?_⟩
    · simpa [hexWrite, rowAccFrom] using h3
    · simpa [hexWrite, rowAccFrom] using h4
    · simp [rowAccFrom]
    · simp [rowAccFrom]
    · simp [rowAccFrom]
  | cons b tl ih =>
    intro st cur h1 h2 h3 h4 h5
    have hco : hexWrite cfg clock st (b :: tl) =
        hexWrite cfg clock (hexWriteByte cfg clock st b) tl := rfl
    by_cases hflush : cur.length + 1 = m
    · obtain ⟨Δ1, hp1, hm1, hw1, hc1, hl1, hd1, hmt1, hrb1, hrs1⟩ :=
        hexWriteByte_step_flush cfg clock m st b cur wa h1 h2 h3 h4 hflush
      obtain ⟨Δ2, hp2, hm2, hw2, hc2, hl2, hd2, hmt2, hrb2, hrs2⟩ :=
        ih (hexWriteByte cfg clock st b) [] hm1 hw1 (by rw [hc1]; rfl)
          (by rw [hl1]; simp) (by simp only [List.length_nil]; omega)
      have hacc : rowAccFrom m ([], cur) (b :: tl) =
          ([cur ++ [b]] ++ (rowAccFrom m ([], []) tl).1, (rowAccFrom m ([], []) tl).2) := by
        rw [rowAccFrom_cons, rowStep_eq,
          if_pos (by simp only [List.length_append, List.length_singleton]; omega)]
        simp only [List.nil_append]
        exact rowAccFrom_shift m tl [cur ++ [b]] []
      refine ⟨Δ1 ++ Δ2, ?_, hm2, hw2, ?_, ?_, ?_, ?_, ?_, ?_⟩
      · rw [hco, hp2, hp1, List.append_assoc]
      · rw [hco, hc2, hacc]
      · rw [hco, hl2, hacc]
      · rw [dataToks_append, hd1, hd2, List.map_cons]
        rfl
      · rw [metaToks_append, hmt1, hmt2, hacc]
        by_cases hwx : wa = true <;> simp [hwx]
      · rw [rowBreakCount_append, hrb1, hrb2, hacc]
        by_cases hwx : wa = true
        · simp [hwx]
        · simp [hwx]
          omega
      · have hlen : (cur ++ [b]).length = m := by
          simp only [List.length_append, List.length_singleton]
          omega
        have hrs2x : rowScan Δ2 0 =
            (List.map List.length (rowAccFrom m ([], []) tl).1,
              (rowAccFrom m ([], []) tl).2.length) := by
          simpa using hrs2
        rw [rowScan_append, hrs1, hacc]
        simp [hrs2x, hlen]
    · obtain ⟨Δ1, hp1, hm1, hw1, hc1, hl1, hd1, hmt1, hrb1, hrs1⟩ :=
        hexWriteByte_step_noflush cfg clock m st b cur wa h1 h2 h3 h4 hflush
      obtain ⟨Δ2, hp2, hm2, hw2, hc2, hl2, hd2, hmt2, hrb2, hrs2⟩ :=
        ih (hexWriteByte cfg clock st b) (cur ++ [b]) hm1 hw1
          (by rw [hc1]; simp) (by rw [hl1])
          (by simp only [List.length_append, List.length_singleton]; omega)
      have hacc : rowAccFrom m ([], cur) (b :: tl) = rowAccFrom m ([], cur ++ [b]) tl := by
        rw [rowAccFrom_cons, rowStep_eq,
          if_neg (by simp only [List.length_append, List.length_singleton]; omega)]
      refine ⟨Δ1 ++ Δ2, ?_, hm2, hw2, ?_, ?_, ?_, ?_, ?_, ?_⟩
      · rw [hco, hp2, hp1, List.append_assoc]
      · rw [hco, hc2, hacc]
      · rw [hco, hl2, hacc]
      · rw [dataToks_append, hd1, hd2, List.map_cons]
        rfl
      · rw [metaToks_append, hmt1, hmt2, hacc]
        by_cases hwx : wa = true <;> simp [hwx]
      · rw [rowBreakCount_append, hrb1, hrb2, hacc]
        by_cases hwx : wa = true <;> simp [hwx]
      · rw [rowScan_append, hrs1, hacc]
        have hlen1 : (cur ++ [b]).length = cur.length + 1 := by simp
        rw [hlen1] at hrs2
        simp [hrs2]

theorem hexDel_metaToks (cfg : WriterCfg) (st : HexSt) (h : st.write_ascii = true) :
    metaToks (hexDel cfg st).w.primary =
      metaToks st.w.primary ++ [metaRendered cfg (gutterText st.current_line)] ∧
    (hexDel cfg st).current_line = [] := by
  unfold hexDel
  simp only [writeAscii, h, if_pos rfl]
  split_ifs <;> simp

theorem hexRun_fresh (cfg : WriterCfg) (clock : Nat → Nat) (t0 : Nat) (wa : Bool) (m : Nat)
    (hm : 1 ≤ m) (bs : List Nat) :
    (hexWrite cfg clock (initHex t0 wa (m : Int)) bs).current_length =
      ((rowAccFrom m ([], []) bs).2).length ∧
    rowScan (hexWrite cfg clock (initHex t0 wa (m : Int)) bs).w.primary 0 =
      (((rowAccFrom m ([], []) bs).1).map List.length, ((rowAccFrom m ([], []) bs).2).length) ∧
    metaToks (hexWrite cfg clock (initHex t0 wa (m : Int)) bs).w.primary =
      (if wa = true then
        ((rowAccFrom m ([], []) bs).1).map (fun r => metaRendered cfg (gutterText r))
      else []) ∧
    (hexWrite cfg clock (initHex t0 wa (m : Int)) bs).current_line =
      (if wa = true then (rowAccFrom m ([], []) bs).2 else []) ∧
    (hexWrite cfg clock (initHex t0 wa (m : Int)) bs).write_ascii = wa := by
  obtain ⟨Δ, hp, hmx, hwx, hcx, hlx, hdx, hmtx, hrbx, hrsx⟩ :=
    hexWrite_run cfg clock m hm wa bs (initHex t0 wa (m : Int)) [] rfl rfl rfl
      (by simp [initHex]) (by simpa using hm)
  have hpr : (hexWrite cfg clock (initHex t0 wa (m : Int)) bs).w.primary = Δ := by
    rw [hp]
    rfl
  refine ⟨hcx, ?_, ?_, hlx, hwx⟩
  · rw [hpr]
    simpa using hrsx
  · rw [hpr]
    exact hmtx

theorem stripEnd_append (a : List Char) : ∀ (b : List Char) (s : Bool),
    stripEnd s (a ++ b) = stripEnd (stripEnd s a) b := by
  induction a with
  | nil => intro b s; cases s <;> rfl
  | cons c tl ih =>
    intro b s
    cases s
    · have h1 : stripEnd false ((c :: tl) ++ b) =
          stripEnd (if c = '\x1b' then true else false) (tl ++ b) := rfl
      have h2 : stripEnd false (c :: tl) =
          stripEnd (if c = '\x1b' then true else false) tl := rfl
      rw [h1, h2]
      by_cases hc : c = '\x1b'
      · rw [if_pos hc]
        exact ih b true
      · rw [if_neg hc]
        exact ih b false
    · have h1 : stripEnd true ((c :: tl) ++ b) =
          stripEnd (if c = 'm' then false else true) (tl ++ b) := rfl
      have h2 : stripEnd true (c :: tl) =
          stripEnd (if c = 'm' then false else true) tl := rfl
      rw [h1, h2]
      by_cases hc : c = 'm'
      · rw [if_pos hc]
        exact ih b false
      · rw [if_neg hc]
        exact ih b true

theorem stripAux_append (a : List Char) : ∀ (b : List Char) (s : Bool),
    stripAux s (a ++ b) = stripAux s a ++ stripAux (stripEnd s a) b := by
  induction a with
  | nil => intro b s; cases s <;> rfl
  | cons c tl ih =>
    intro b s
    cases s
    · have h1 : stripAux false ((c :: tl) ++ b) =
          (if c = '\x1b' then stripAux true (tl ++ b) else c :: stripAux false (tl ++ b)) := rfl
      have h2 : stripAux false (c :: tl) =
          (if c = '\x1b' then stripAux true tl else c :: stripAux false tl) := rfl
      have h3 : stripEnd false (c :: tl) =
          stripEnd (if c = '\x1b' then true else false) tl := rfl
      rw [h1, h2, h3]
      by_cases hc : c = '\x1b'
      · rw [if_pos hc, if_pos hc, if_pos hc]
        exact ih b true
      · rw [if_neg hc, if_neg hc, if_neg hc]
        rw [ih b false]
        simp
    · have h1 : stripAux true ((c :: tl) ++ b) =
          (if c = 'm' then stripAux false (tl ++ b) else stripAux true (tl ++ b)) := rfl
      have h2 : stripAux true (c :: tl) =
          (if c = 'm' then stripAux false tl else stripAux true tl) := rfl
      have h3 : stripEnd true (c :: tl) =
          stripEnd (if c = 'm' then false else true) tl := rfl
      rw [h1, h2, h3]
      by_cases hc : c = 'm'
      · rw [if_pos hc, if_pos hc, if_pos hc]
        exact ih b false
      · rw [if_neg hc, if_neg hc, if_neg hc]
        exact ih b true

theorem strip_of_noEsc (l : List Char) (h : '\x1b' ∉ l) :
    stripAux false l = l ∧ stripEnd false l = false := by
  induction l with
  | nil => exact ⟨rfl, rfl⟩
  | cons c tl ih =>
    have hc : c ≠ '\x1b' := fun hx => h (by rw [← hx]; exact List.mem_cons_self c tl)
    have htl : '\x1b' ∉ tl := fun hx => h (List.mem_cons_of_mem c hx)
    constructor
    · simp only [stripAux, if_neg hc]
      rw [(ih htl).1]
    · simp only [stripEnd, if_neg hc]
      exact (ih htl).2

theorem natCharsAux_noEsc : ∀ (fuel n : Nat), '\x1b' ∉ natCharsAux fuel n := by
  intro fuel
  induction fuel with
  | zero => intro n; simp [natCharsAux]
  | succ f ih =>
    intro n
    have hd : ∀ j : Nat, digitChar j ≠ '\x1b' := by
      intro j
      have : ∀ k < 10, Char.ofNat (48 + k) ≠ '\x1b' := by decide
      exact this (j % 10) (Nat.mod_lt j (by omega))
    simp only [natCharsAux]
    split_ifs with h
    · intro hmem
      rw [List.mem_singleton] at hmem
      exact hd n hmem.symm
    · intro hmem
      rcases List.mem_append.mp hmem with hx | hx
      · exact ih (n / 10) hx
      · rcases List.mem_singleton.mp hx with hx2
        exact hd (n % 10) hx2.symm

theorem natChars_noEsc (n : Nat) : '\x1b' ∉ natChars n := natCharsAux_noEsc (n + 1) n

theorem tsPlain_noEsc (t : Nat) : '\x1b' ∉ tsPlain t := by
  intro hmem
  rcases List.mem_append.mp hmem with hx | hx
  · exact natChars_noEsc t hx
  · revert hx
    decide

theorem metaPlain_noEsc (s : List Char) (hs : '\x1b' ∉ s) : '\x1b' ∉ metaPlain s := by
  intro hmem
  simp only [metaPlain, List.mem_cons, List.mem_append, List.mem_singleton] at hmem
  rcases hmem with h1 | h2 | h3 | h4
  · exact absurd h1.symm (by decide)
  · exact absurd h2.symm (by decide)
  · exact hs h3
  · exact absurd h4.symm (by decide)

theorem strip_metaRendered (cfg : WriterCfg) (s : List Char) (hs : '\x1b' ∉ s) :
    stripAux false (metaRendered cfg s) = metaPlain s ∧
    stripEnd false (metaRendered cfg s) = false := by
  by_cases hc : cfg.with_color = true
  · have h1 : stripAux false (metaColored s) =
        '|' :: ' ' :: stripAux false (s ++ "\x1b[0;m\n".data) := rfl
    have h2 : stripEnd false (metaColored s) = stripEnd false (s ++ "\x1b[0;m\n".data) := rfl
    constructor
    · rw [metaRendered, if_pos hc, h1, stripAux_append, (strip_of_noEsc s hs).1,
        (strip_of_noEsc s hs).2]
      have h3 : stripAux false ("\x1b[0;m\n".data) = ['\n'] := rfl
      rw [h3]
      rfl
    · rw [metaRendered, if_pos hc, h2, stripEnd_append, (strip_of_noEsc s hs).2]
      rfl
  · rw [metaRendered, if_neg hc]
    exact strip_of_noEsc (metaPlain s) (metaPlain_noEsc s hs)

theorem strip_tsRendered (cfg : WriterCfg) (t : Nat) :
    stripAux false (tsRendered cfg t) = tsPlain t ∧
    stripEnd false (tsRendered cfg t) = false := by
  by_cases hc : cfg.with_color = true
  · have h1 : stripAux false (tsColored t) =
        stripAux false (natChars t ++ " \x1b[0;34m|\x1b[0;m ".data) := rfl
    have h2 : stripEnd false (tsColored t) =
        stripEnd false (natChars t ++ " \x1b[0;34m|\x1b[0;m ".data) := rfl
    have hn := strip_of_noEsc (natChars t) (natChars_noEsc t)
    constructor
    · rw [tsRendered, if_pos hc, h1, stripAux_append, hn.1, hn.2]
      have h3 : stripAux false (" \x1b[0;34m|\x1b[0;m ".data) = [' ', '|', ' '] := rfl
      rw [h3]
      rfl
    · rw [tsRendered, if_pos hc, h2, stripEnd_append, hn.2]
      rfl
  · rw [tsRendered, if_neg hc]
    exact strip_of_noEsc (tsPlain t) (tsPlain_noEsc t)

theorem wwrite_ptext (cfg : WriterCfg) (g : Tag) (s : List Char) (st : WriterSt) :
    ptext (wwrite cfg g s st) = ptext st ++ s := by
  simp [ptext, wwrite]

theorem wwrite_ltext (cfg : WriterCfg) (g : Tag) (s : List Char) (st : WriterSt)
    (hlog : cfg.has_log = true) (hcl : cfg.log_closed = false) :
    ltext (wwrite cfg g s st) = ltext st ++ s := by
  simp [ltext, wwrite, wlog, hlog, hcl]

theorem wmeta_ptext (cfg : WriterCfg) (s : List Char) (st : WriterSt) :
    ptext (wmeta cfg s st) = ptext st ++ metaRendered cfg s := by
  simp [ptext, wmeta]

theorem wmeta_ltext (cfg : WriterCfg) (s : List Char) (st : WriterSt)
    (hlog : cfg.has_log = true) (hcl : cfg.log_closed = false) :
    ltext (wmeta cfg s st) = ltext st ++ metaPlain s := by
  simp [ltext, wmeta, wlog, hlog, hcl]

theorem wtimestamp_ptext (cfg : WriterCfg) (clock : Nat → Nat) (st : WriterSt)
    (hts : cfg.add_timestamp = true) :
    ptext (wtimestamp cfg clock st) = ptext st ++ tsRendered cfg (clock st.ticks) := by
  simp [ptext, wtimestamp, hts]

theorem wtimestamp_ltext (cfg : WriterCfg) (clock : Nat → Nat) (st : WriterSt)
    (hts : cfg.add_timestamp = true) (hlog : cfg.has_log = true) (hcl : cfg.log_closed = false) :
    ltext (wtimestamp cfg clock st) = ltext st ++ tsPlain (clock (st.ticks + 1)) := by
  simp [ltext, wtimestamp, wlog, hts, hlog, hcl]

theorem runOps_mirror (cfg : WriterCfg) (k : Nat) (hlog : cfg.has_log = true)
    (hcl : cfg.log_closed = false) (ops : List WOp) : ∀ st : WriterSt,
    (∀ op ∈ ops, opEscFree op) →
    stripAux false (ptext st) = ltext st → stripEnd false (ptext st) = false →
    stripAux false (ptext (runOps cfg (fun _ => k) st ops)) =
      ltext (runOps cfg (fun _ => k) st ops) ∧
    stripEnd false (ptext (runOps cfg (fun _ => k) st ops)) = false := by
  induction ops with
  | nil => intro st _ hstrip hend; exact ⟨hstrip, hend⟩
  | cons op tl ih =>
    intro st hesc hstrip hend
    have hops : runOps cfg (fun _ => k) st (op :: tl) =
        runOps cfg (fun _ => k) (runOp cfg (fun _ => k) st op) tl := rfl
    have hesc1 : opEscFree op := hesc op (by simp)
    have hesctl : ∀ o ∈ tl, opEscFree o := fun o ho => hesc o (by simp [ho])
    have hstep : stripAux false (ptext (runOp cfg (fun _ => k) st op)) =
        ltext (runOp cfg (fun _ => k) st op) ∧
        stripEnd false (ptext (runOp cfg (fun _ => k) st op)) = false := by
      cases op with
      | write g s =>
        have hx := strip_of_noEsc s hesc1
        rw [runOp, wwrite_ptext, wwrite_ltext cfg g s st hlog hcl, stripAux_append,
          stripEnd_append, hstrip, hend, hx.1, hx.2]
        exact ⟨rfl, rfl⟩
      | meta s =>
        have hx := strip_metaRendered cfg s hesc1
        rw [runOp, wmeta_ptext, wmeta_ltext cfg s st hlog hcl, stripAux_append,
          stripEnd_append, hstrip, hend, hx.1, hx.2]
        exact ⟨rfl, rfl⟩
      | timestamp =>
        by_cases hts : cfg.add_timestamp = true
        · have hx := strip_tsRendered cfg k
          rw [runOp, wtimestamp_ptext cfg _ st hts, wtimestamp_ltext cfg _ st hts hlog hcl,
            stripAux_append, stripEnd_append, hstrip, hend]
          exact ⟨by rw [hx.1], by rw [hx.2]⟩
        · rw [runOp, wtimestamp_off cfg _ st (by revert hts; cases cfg.add_timestamp <;> simp)]
          exact ⟨hstrip, hend⟩
    rw [hops]
    exact ih (runOp cfg (fun _ => k) st op) hesctl hstep.1 hstep.2

theorem wtimestamp_ticks (cfg : WriterCfg) (clock : Nat → Nat) (st : WriterSt) :
    (wtimestamp cfg clock st).ticks =
      (if cfg.add_timestamp = true then st.ticks + 2 else st.ticks) := by
  unfold wtimestamp
  split_ifs <;> simp

theorem runOp_log_closed (cfg : WriterCfg) (clock : Nat → Nat) (op : WOp) (st : WriterSt)
    (hcl : cfg.log_closed = true) : (runOp cfg clock st op).log = st.log := by
  cases op with
  | write g s => simp [runOp, wwrite, wlog, hcl]
  | meta s => simp [runOp, wmeta, wlog, hcl]
  | timestamp =>
    rw [runOp]
    unfold wtimestamp
    split_ifs <;> simp [wlog, hcl]

theorem runOps_log_closed (cfg : WriterCfg) (clock : Nat → Nat) (ops : List WOp) :
    ∀ st : WriterSt, cfg.log_closed = true → (runOps cfg clock st ops).log = st.log := by
  induction ops with
  | nil => intro st _; rfl
  | cons op tl ih =>
    intro st hcl
    have : runOps cfg clock st (op :: tl) = runOps cfg clock (runOp cfg clock st op) tl := rfl
    rw [this, ih _ hcl, runOp_log_closed cfg clock op st hcl]

theorem runOp_warnings (cfg : WriterCfg) (clock : Nat → Nat) (op : WOp) (st : WriterSt) :
    (runOp cfg clock st op).warnings = st.warnings := by
  cases op with
  | write g s => simp [runOp]
  | meta s => simp [runOp]
  | timestamp => rw [runOp]; exact wtimestamp_warnings cfg clock st

theorem runOps_warnings (cfg : WriterCfg) (clock : Nat → Nat) (ops : List WOp) :
    ∀ st : WriterSt, (runOps cfg clock st ops).warnings = st.warnings := by
  induction ops with
  | nil => intro st; rfl
  | cons op tl ih =>
    intro st
    have : runOps cfg clock st (op :: tl) = runOps cfg clock (runOp cfg clock st op) tl := rfl
    rw [this, ih, runOp_warnings]

theorem runOp_primary_congr (cfg cfg' : WriterCfg)
    (hts : cfg.add_timestamp = cfg'.add_timestamp) (hwc : cfg.with_color = cfg'.with_color)
    (clock : Nat → Nat) (op : WOp) (st1 st2 : WriterSt) (hp : st1.primary = st2.primary)
    (ht : st1.ticks = st2.ticks) :
    (runOp cfg clock st1 op).primary = (runOp cfg' clock st2 op).primary ∧
    (runOp cfg clock st1 op).ticks = (runOp cfg' clock st2 op).ticks := by
  cases op with
  | write g s => exact ⟨by simp [runOp, hp], by simp [runOp, ht]⟩
  | meta s =>
    constructor
    · simp only [runOp, wmeta_primary, hp]
      rw [metaRendered, metaRendered, hwc]
    · simp [runOp, ht]
  | timestamp =>
    by_cases h : cfg.add_timestamp = true
    · have h2 : cfg'.add_timestamp = true := by rw [← hts]; exact h
      constructor
      · rw [runOp, runOp, wtimestamp_primary, wtimestamp_primary, h, h2, if_pos rfl,
          if_pos rfl, hp, ht]
        rw [tsRendered, tsRendered, hwc]
      · rw [runOp, runOp, wtimestamp_ticks, wtimestamp_ticks, h, h2, if_pos rfl, if_pos rfl,
          ht]
    · have h1 : cfg.add_timestamp = false := by revert h; cases cfg.add_timestamp <;> simp
      have h2 : cfg'.add_timestamp = false := by rw [← hts]; exact h1
      rw [runOp, runOp, wtimestamp_off cfg clock st1 h1, wtimestamp_off cfg' clock st2 h2]
      exact ⟨hp, ht⟩

theorem runOps_primary_congr (cfg cfg' : WriterCfg)
    (hts : cfg.add_timestamp = cfg'.add_timestamp) (hwc : cfg.with_color = cfg'.with_color)
    (clock : Nat → Nat) (ops : List WOp) : ∀ st1 st2 : WriterSt, st1.primary = st2.primary →
    st1.ticks = st2.ticks →
    (runOps cfg clock st1 ops).primary = (runOps cfg' clock st2 ops).primary ∧
    (runOps cfg clock st1 ops).ticks = (runOps cfg' clock st2 ops).ticks := by
  induction ops with
  | nil => intro st1 st2 hp ht; exact ⟨hp, ht⟩
  | cons op tl ih =>
    intro st1 st2 hp ht
    have e1 : runOps cfg clock st1 (op :: tl) = runOps cfg clock (runOp cfg clock st1 op) tl :=
      rfl
    have e2 : runOps cfg' clock st2 (op :: tl) =
        runOps cfg' clock (runOp cfg' clock st2 op) tl := rfl
    rw [e1, e2]
    have hstep := runOp_primary_congr cfg cfg' hts hwc clock op st1 st2 hp ht
    exact ih _ _ hstep.1 hstep.2

set_option maxRecDepth 4000 in
theorem charOfNat_eq_cr : ∀ b < 256, (Char.ofNat b = '\r' ↔ b = 13) := by decide

theorem lineWriteByte_no_ts (cfg : WriterCfg) (clock : Nat → Nat) (st : LineSt) (b : Nat)
    (hts : cfg.add_timestamp = false) :
    lineWriteByte cfg clock st b =
      { w := wwrite cfg Tag.chr [Char.ofNat b] st.w, first := false } := by
  simp only [lineWriteByte, wtimestamp_off cfg clock _ hts]
  by_cases hf : st.first = true <;> by_cases hn : Char.ofNat b = '\n' <;> simp [hf, hn]

theorem hexWriteByte_no_ts (cfg : WriterCfg) (clock : Nat → Nat) (st : HexSt) (b : Nat)
    (hts : cfg.add_timestamp = false) :
    hexWriteByte cfg clock st b =
      (if (((st.current_length + 1 : Nat) : Int) = st.max_length) then
        { writeAscii cfg
            { st with
              w := wwrite cfg Tag.data (hexPair b) st.w,
              current_line :=
                if st.write_ascii = true then st.current_line ++ [b] else st.current_line,
              current_length := st.current_length + 1 } with
          current_length := 0 }
      else
        { st with
          w := wwrite cfg Tag.data (hexPair b) st.w,
          current_line :=
            if st.write_ascii = true then st.current_line ++ [b] else st.current_line,
          current_length := st.current_length + 1 }) := by
  rw [hexWriteByte_unfold]
  simp [wtimestamp_off cfg clock _ hts]

theorem lineWrite_no_clock (cfg : WriterCfg) (c1 c2 : Nat → Nat) (bs : List Nat)
    (hts : cfg.add_timestamp = false) : ∀ st : LineSt,
    lineWrite cfg c1 st bs = lineWrite cfg c2 st bs := by
  induction bs with
  | nil => intro st; rfl
  | cons b tl ih =>
    intro st
    have e1 : lineWrite cfg c1 st (b :: tl) =
        lineWrite cfg c1 (lineWriteByte cfg c1 st b) tl := rfl
    have e2 : lineWrite cfg c2 st (b :: tl) =
        lineWrite cfg c2 (lineWriteByte cfg c2 st b) tl := rfl
    rw [e1, e2, lineWriteByte_no_ts cfg c1 st b hts, lineWriteByte_no_ts cfg c2 st b hts, ih]

theorem hexWrite_no_clock (cfg : WriterCfg) (c1 c2 : Nat → Nat) (bs : List Nat)
    (hts : cfg.add_timestamp = false) : ∀ st : HexSt,
    hexWrite cfg c1 st bs = hexWrite cfg c2 st bs := by
  induction bs with
  | nil => intro st; rfl
  | cons b tl ih =>
    intro st
    have e1 : hexWrite cfg c1 st (b :: tl) =
        hexWrite cfg c1 (hexWriteByte cfg c1 st b) tl := rfl
    have e2 : hexWrite cfg c2 st (b :: tl) =
        hexWrite cfg c2 (hexWriteByte cfg c2 st b) tl := rfl
    rw [e1, e2, hexWriteByte_no_ts cfg c1 st b hts, hexWriteByte_no_ts cfg c2 st b hts, ih]

theorem wwrite_setTicks (cfg : WriterCfg) (g : Tag) (s : List Char) (t : Nat) (w : WriterSt) :
    wwrite cfg g s (setTicks t w) = setTicks t (wwrite cfg g s w) := by
  simp only [wwrite, wlog, setTicks]
  split_ifs <;> rfl

theorem wmeta_setTicks (cfg : WriterCfg) (s : List Char) (t : Nat) (w : WriterSt) :
    wmeta cfg s (setTicks t w) = setTicks t (wmeta cfg s w) := by
  simp only [wmeta, wlog, setTicks]
  split_ifs <;> rfl

theorem writeAscii_setTicks (cfg : WriterCfg) (st : HexSt) (t : Nat) :
    writeAscii cfg { st with w := setTicks t st.w } =
      { writeAscii cfg st with w := setTicks t (writeAscii cfg st).w } := by
  simp only [writeAscii]
  split_ifs with h1 h2 <;>
    simp [wwrite_setTicks, wmeta_setTicks]

theorem lineWrite_setTicks (cfg : WriterCfg) (c : Nat → Nat) (bs : List Nat)
    (hts : cfg.add_timestamp = false) : ∀ (w0 : WriterSt) (f : Bool) (t : Nat),
    lineWrite cfg c ⟨setTicks t w0, f⟩ bs =
      ⟨setTicks t (lineWrite cfg c ⟨w0, f⟩ bs).w, (lineWrite cfg c ⟨w0, f⟩ bs).first⟩ := by
  induction bs with
  | nil => intro w0 f t; rfl
  | cons b tl ih =>
    intro w0 f t
    have e1 : lineWrite cfg c ⟨setTicks t w0, f⟩ (b :: tl) =
        lineWrite cfg c (lineWriteByte cfg c ⟨setTicks t w0, f⟩ b) tl := rfl
    have e2 : lineWrite cfg c ⟨w0, f⟩ (b :: tl) =
        lineWrite cfg c (lineWriteByte cfg c ⟨w0, f⟩ b) tl := rfl
    rw [e1, e2, lineWriteByte_no_ts cfg c _ b hts, lineWriteByte_no_ts cfg c _ b hts]
    show lineWrite cfg c ⟨wwrite cfg Tag.chr [Char.ofNat b] (setTicks t w0), false⟩ tl = _
    rw [wwrite_setTicks]
    exact ih (wwrite cfg Tag.chr [Char.ofNat b] w0) false t

theorem wwrite_log (cfg : WriterCfg) (g : Tag) (s : List Char) (w : WriterSt) :
    (wwrite cfg g s w).log =
      if cfg.has_log = true ∧ cfg.log_closed = false then w.log ++ [s] else w.log := by
  simp only [wwrite, wlog]
  split_ifs <;> rfl

theorem wmeta_log (cfg : WriterCfg) (s : List Char) (w : WriterSt) :
    (wmeta cfg s w).log =
      if cfg.has_log = true ∧ cfg.log_closed = false then w.log ++ [metaPlain s] else w.log := by
  simp only [wmeta, wlog]
  split_ifs <;> rfl

theorem writeAscii_congr (cfg : WriterCfg) (st1 st2 : HexSt)
    (hwa : st1.write_ascii = st2.write_ascii) (hline : st1.current_line = st2.current_line)
    (hcl : st1.current_length = st2.current_length) (hml : st1.max_length = st2.max_length)
    (hp : st1.w.primary = st2.w.primary) (hl : st1.w.log = st2.w.log)
    (hw : st1.w.warnings = st2.w.warnings) :
    (writeAscii cfg st1).write_ascii = (writeAscii cfg st2).write_ascii ∧
    (writeAscii cfg st1).current_line = (writeAscii cfg st2).current_line ∧
    (writeAscii cfg st1).current_length = (writeAscii cfg st2).current_length ∧
    (writeAscii cfg st1).max_length = (writeAscii cfg st2).max_length ∧
    (writeAscii cfg st1).w.primary = (writeAscii cfg st2).w.primary ∧
    (writeAscii cfg st1).w.log = (writeAscii cfg st2).w.log ∧
    (writeAscii cfg st1).w.warnings = (writeAscii cfg st2).w.warnings := by
  simp only [writeAscii]
  rw [hwa, hline, hcl, hml]
  split_ifs <;>
    simp [hp, hl, hw, hwa, hline, hcl, hml, wwrite_log, wmeta_log]

theorem hexWriteByte_congr_no_ts (cfg : WriterCfg) (c1 c2 : Nat → Nat) (b : Nat)
    (hts : cfg.add_timestamp = false) (st1 st2 : HexSt)
    (hwa : st1.write_ascii = st2.write_ascii) (hline : st1.current_line = st2.current_line)
    (hcl : st1.current_length = st2.current_length) (hml : st1.max_length = st2.max_length)
    (hp : st1.w.primary = st2.w.primary) (hl : st1.w.log = st2.w.log)
    (hw : st1.w.warnings = st2.w.warnings) :
    (hexWriteByte cfg c1 st1 b).write_ascii = (hexWriteByte cfg c2 st2 b).write_ascii ∧
    (hexWriteByte cfg c1 st1 b).current_line = (hexWriteByte cfg c2 st2 b).current_line ∧
    (hexWriteByte cfg c1 st1 b).current_length = (hexWriteByte cfg c2 st2 b).current_length ∧
    (hexWriteByte cfg c1 st1 b).max_length = (hexWriteByte cfg c2 st2 b).max_length ∧
    (hexWriteByte cfg c1 st1 b).w.primary = (hexWriteByte cfg c2 st2 b).w.primary ∧
    (hexWriteByte cfg c1 st1 b).w.log = (hexWriteByte cfg c2 st2 b).w.log ∧
    (hexWriteByte cfg c1 st1 b).w.warnings = (hexWriteByte cfg c2 st2 b).w.warnings := by
  rw [hexWriteByte_no_ts cfg c1 st1 b hts, hexWriteByte_no_ts cfg c2 st2 b hts]
  rw [hwa, hline, hcl, hml]
  by_cases hfl : (((st2.current_length + 1 : Nat) : Int) = st2.max_length)
  · rw [if_pos hfl, if_pos hfl]
    have hcongr := writeAscii_congr cfg
      { w := wwrite cfg Tag.data (hexPair b) st1.w,
        write_ascii := st2.write_ascii,
        current_line :=
          if st2.write_ascii = true then st2.current_line ++ [b] else st2.current_line,
        current_length := st2.current_length + 1,
        max_length := st2.max_length }
      { w := wwrite cfg Tag.data (hexPair b) st2.w,
        write_ascii := st2.write_ascii,
        current_line :=
          if st2.write_ascii = true then st2.current_line ++ [b] else st2.current_line,
        current_length := st2.current_length + 1,
        max_length := st2.max_length }
      rfl rfl rfl rfl (by simp [hp]) (by simp [wwrite_log, hl]) (by simp [hw])
    exact ⟨hcongr.1, hcongr.2.1, rfl, hcongr.2.2.2.1, hcongr.2.2.2.2.1,
      hcongr.2.2.2.2.2.1, hcongr.2.2.2.2.2.2⟩
  · rw [if_neg hfl, if_neg hfl]
    exact ⟨rfl, rfl, rfl, rfl, by simp [hp], by simp [wwrite_log, hl], by simp [hw]⟩

theorem hexWrite_congr_no_ts (cfg : WriterCfg) (c1 c2 : Nat → Nat) (bs : List Nat)
    (hts : cfg.add_timestamp = false) : ∀ st1 st2 : HexSt,
    st1.write_ascii = st2.write_ascii → st1.current_line = st2.current_line →
    st1.current_length = st2.current_length → st1.max_length = st2.max_length →
    st1.w.primary = st2.w.primary → st1.w.log = st2.w.log →
    st1.w.warnings = st2.w.warnings →
    (hexWrite cfg c1 st1 bs).w.primary = (hexWrite cfg c2 st2 bs).w.primary ∧
    (hexWrite cfg c1 st1 bs).w.log = (hexWrite cfg c2 st2 bs).w.log := by
  induction bs with
  | nil => intro st1 st2 _ _ _ _ hp hl _; exact ⟨hp, hl⟩
  | cons b tl ih =>
    intro st1 st2 hwa hline hcl hml hp hl hw
    have e1 : hexWrite cfg c1 st1 (b :: tl) =
        hexWrite cfg c1 (hexWriteByte cfg c1 st1 b) tl := rfl
    have e2 : hexWrite cfg c2 st2 (b :: tl) =
        hexWrite cfg c2 (hexWriteByte cfg c2 st2 b) tl := rfl
    rw [e1, e2]
    have hstep := hexWriteByte_congr_no_ts cfg c1 c2 b hts st1 st2 hwa hline hcl hml hp hl hw
    exact ih _ _ hstep.1 hstep.2.1 hstep.2.2.1 hstep.2.2.2.1 hstep.2.2.2.2.1
      hstep.2.2.2.2.2.1 hstep.2.2.2.2.2.2

theorem rawWriteChunks_congr (cfg : WriterCfg) (chunks : List (List Nat)) :
    ∀ w1 w2 : WriterSt, w1.primary = w2.primary → w1.log = w2.log →
    w1.warnings = w2.warnings →
    (rawWriteChunks cfg w1 chunks).primary = (rawWriteChunks cfg w2 chunks).primary ∧
    (rawWriteChunks cfg w1 chunks).log = (rawWriteChunks cfg w2 chunks).log ∧
    (rawWriteChunks cfg w1 chunks).warnings = (rawWriteChunks cfg w2 chunks).warnings := by
  induction chunks with
  | nil => intro w1 w2 hp hl hw; exact ⟨hp, hl, hw⟩
  | cons ch tl ih =>
    intro w1 w2 hp hl hw
    have e1 : rawWriteChunks cfg w1 (ch :: tl) = rawWriteChunks cfg (rawWrite cfg w1 ch) tl :=
      rfl
    have e2 : rawWriteChunks cfg w2 (ch :: tl) = rawWriteChunks cfg (rawWrite cfg w2 ch) tl :=
      rfl
    rw [e1, e2]
    exact ih _ _ (by simp [rawWrite, hp]) (by simp [rawWrite, wwrite_log, hl])
      (by simp [rawWrite, hw])

/-!
Claim theorems.
-/

/-- Claim C1 (confirmed): for every sequence of byte chunks fed
through a freshly constructed Hex formatter (any timestamp, color,
log, ascii and row-width configuration), parsing the hex digit pairs
back out of the emitted output — keeping only the byte-payload writes
and so stripping row padding, timestamp markers, ASCII-gutter
metadata lines and separators — yields exactly the concatenation of
the input chunks. -/
theorem hex_roundtrip (cfg : WriterCfg) (clock : Nat → Nat) (t0 : Nat) (wa : Bool) (ml : Int)
    (chunks : List (List Nat)) (h : ∀ b ∈ chunks.flatten, b < 256) :
    decodeData (hexWriteChunks cfg clock (initHex t0 wa ml) chunks).w.primary =
      some chunks.flatten := by
  rw [hexWriteChunks_eq_flatten]
  unfold decodeData
  rw [hexWrite_dataToks]
  have : dataToks (initHex t0 wa ml).w.primary = [] := rfl
  rw [this, List.nil_append]
  exact parseAll_hexPair chunks.flatten h

/-- Witness for C1: a concrete two-chunk run with a partial trailing
row de-hexes to the original bytes. -/
theorem hex_roundtrip_witness :
    (∀ b ∈ ([[0, 255], [16, 3, 77]] : List (List Nat)).flatten, b < 256) ∧
    decodeData
        (hexWriteChunks ⟨true, true, true, false⟩ (fun i => i) (initHex 0 true 4)
          [[0, 255], [16, 3, 77]]).w.primary =
      some [0, 255, 16, 3, 77] :=
  ⟨by decide,
    hex_roundtrip ⟨true, true, true, false⟩ (fun i => i) 0 true 4 [[0, 255], [16, 3, 77]]
      (by decide)⟩

/-- Counterexample for claim C3: with wait-for-device enabled, an open
failure that is not of the device-not-present kind (here a
SerialException with notPresent = false, e.g. a permission error) is
retried and the connection succeeds on the second attempt, instead of
terminating the attempt immediately as the claim requires. -/
theorem connect_retry_policy_cex :
    connectLoop true [OpenResult.serialErr false, OpenResult.ok] = ConnectResult.connected 2 := by
  decide

/-- Claim C3 (amended): open_port collapses every OSError and every
SerialException to None, so under wait-for-device every open failure
— of the not-present kind or not — is retried and the loop never
terminates fatally; without wait-for-device the first open failure of
any kind is immediately fatal. -/
theorem connect_retry_policy (r : OpenResult) (rs : List OpenResult) (n : Nat)
    (hfail : open_port r = none) :
    connectLoop true (r :: rs) ≠ ConnectResult.fatal n ∧
    connectLoop false (r :: rs) = ConnectResult.fatal 1 := by
  constructor
  · exact connectLoop_true_ne_fatal (r :: rs) n
  · unfold connectLoop
    rw [hfail]
    simp

/-- Witness for C3 at a concrete failure kind and outcome list. -/
theorem connect_retry_policy_witness :
    open_port (OpenResult.osErr false) = none ∧
    (connectLoop true [OpenResult.osErr false, OpenResult.ok] ≠ ConnectResult.fatal 2 ∧
      connectLoop false [OpenResult.osErr false, OpenResult.ok] = ConnectResult.fatal 1) :=
  ⟨by decide, connect_retry_policy (OpenResult.osErr false) [OpenResult.ok] 2 (by decide)⟩

/-- Counterexample for claim C8: byte 0x07 (BEL, a non-printable
ASCII control byte) is not dropped from the rendered gutter — the
gutter of a row holding only that byte is the one-character string
with code 7, not the empty string the claim requires. -/
theorem gutter_drop_cex :
    gutterText [7] = [Char.ofNat 7] ∧ gutterText [7] ≠ [] := by
  decide

/-- Claim C8 (amended): the ASCII gutter drops exactly the non-ASCII
bytes (128 and above, removed by the ascii decode with errors
ignored) and the line-feed and carriage-return bytes (removed by the
two str.replace calls); every other byte below 128 — printable or
not, control characters included — is rendered as the character with
that code, with no placeholder substituted and order preserved. -/
theorem asciiDecodeIgnore_cons (b : Nat) (tl : List Nat) :
    asciiDecodeIgnore (b :: tl) =
      if b < 128 then Char.ofNat b :: asciiDecodeIgnore tl else asciiDecodeIgnore tl := by
  by_cases h : b < 128 <;> simp [asciiDecodeIgnore, List.filter_cons, h]

theorem removeAll_cons (c x : Char) (l : List Char) :
    removeAll c (x :: l) = if x = c then removeAll c l else x :: removeAll c l := by
  by_cases h : x = c <;> simp [removeAll, List.filter_cons, h]

theorem gutter_characterization (bs : List Nat) (hbytes : ∀ b ∈ bs, b < 256) :
    gutterText bs =
      (bs.filter (fun b => b < 128 ∧ b ≠ 10 ∧ b ≠ 13)).map Char.ofNat := by
  induction bs with
  | nil => rfl
  | cons b tl ih =>
    have hb : b < 256 := hbytes b (by simp)
    have htl : ∀ x ∈ tl, x < 256 := fun x hx => hbytes x (by simp [hx])
    have ihx := ih htl
    show removeAll '\r' (removeAll '\n' (asciiDecodeIgnore (b :: tl))) =
      ((b :: tl).filter (fun b => b < 128 ∧ b ≠ 10 ∧ b ≠ 13)).map Char.ofNat
    rw [asciiDecodeIgnore_cons, List.filter_cons]
    by_cases h128 : b < 128
    · rw [if_pos h128, removeAll_cons]
      by_cases h10 : b = 10
      · rw [if_pos ((charOfNat_eq_lf b hb).2 h10), if_neg (by simp [h10])]
        exact ihx
      · rw [if_neg (fun hx => h10 ((charOfNat_eq_lf b hb).1 hx)), removeAll_cons]
        by_cases h13 : b = 13
        · rw [if_pos ((charOfNat_eq_cr b hb).2 h13), if_neg (by simp [h13])]
          exact ihx
        · rw [if_neg (fun hx => h13 ((charOfNat_eq_cr b hb).1 hx)),
            if_pos (by simp [h128, h10, h13]), List.map_cons]
          show Char.ofNat b :: gutterText tl = _
          rw [ihx]
    · rw [if_neg h128, if_neg (by simp [h128])]
      exact ihx

/-- Witness for C8: a row mixing printable bytes, control bytes,
CR/LF and high bytes keeps exactly the sub-128 non-CR/LF bytes. -/
theorem gutter_characterization_witness :
    (∀ b ∈ ([65, 7, 10, 13, 127, 128, 255, 66] : List Nat), b < 256) ∧
    gutterText [65, 7, 10, 13, 127, 128, 255, 66] =
      (([65, 7, 10, 13, 127, 128, 255, 66] : List Nat).filter
        (fun b => b < 128 ∧ b ≠ 10 ∧ b ≠ 13)).map Char.ofNat :=
  ⟨by decide, gutter_characterization [65, 7, 10, 13, 127, 128, 255, 66] (by decide)⟩

/-- Claim C10 (confirmed): with maxColumns (max_length, set from the
public --hexbytes option) at most 0, the equality test that triggers
a row flush never fires: a freshly constructed Hex formatter fed any
chunk sequence emits no ASCII-gutter metadata line and no bare row
break, columnCount (current_length) ends at the total number of bytes
processed — growing without bound — and on any non-empty input the
columnCount range invariant columnCount less-or-equal maxColumns is
violated. -/
theorem hex_no_flush_nonpositive_max (cfg : WriterCfg) (clock : Nat → Nat) (t0 : Nat) (wa : Bool)
    (ml : Int) (chunks : List (List Nat)) (hml : ml ≤ 0) :
    (hexWriteChunks cfg clock (initHex t0 wa ml) chunks).current_length =
        chunks.flatten.length ∧
    metaToks (hexWriteChunks cfg clock (initHex t0 wa ml) chunks).w.primary = [] ∧
    rowBreakCount (hexWriteChunks cfg clock (initHex t0 wa ml) chunks).w.primary = 0 ∧
    (chunks.flatten ≠ [] →
      ¬(((hexWriteChunks cfg clock (initHex t0 wa ml) chunks).current_length : Int) ≤
          (hexWriteChunks cfg clock (initHex t0 wa ml) chunks).max_length)) := by
  rw [hexWriteChunks_eq_flatten]
  have h0 : (initHex t0 wa ml).max_length = ml := rfl
  have hrun := hexWrite_nonpos_max cfg clock (initHex t0 wa ml) chunks.flatten (by rw [h0]; exact hml)
  have hcl : (hexWrite cfg clock (initHex t0 wa ml) chunks.flatten).current_length =
      chunks.flatten.length := by
    rw [hrun.1]
    show 0 + chunks.flatten.length = chunks.flatten.length
    omega
  refine ⟨hcl, ?_, ?_, ?_⟩
  · rw [hrun.2.2.1]; rfl
  · rw [hrun.2.2.2]; rfl
  · intro hne
    rw [hcl, hrun.2.1, h0]
    have : 1 ≤ chunks.flatten.length := by
      cases hx : chunks.flatten with
      | nil => exact absurd hx hne
      | cons a tl => simp
    omega

/-- Counterexample for claim C9: two freshly constructed Line
formatters with addTimestamp enabled, fed the identical chunk
sequence under the one ambient clock, produce different output text
when the second instance starts after the clock has advanced (here by
the two samples the first run consumed): the timestamp markers embed
different time values. -/
theorem formatter_determinism_cex :
    ptext (runVariant Variant.line ⟨true, false, false, false⟩ (fun i => i) false 16 0
        [[97]]) ≠
      ptext (runVariant Variant.line ⟨true, false, false, false⟩ (fun i => i) false 16 2
        [[97]]) := by
  decide

/-- Claim C9 (amended): with addTimestamp disabled, feeding the same
chunk sequence through two freshly constructed formatter instances of
the same variant and configuration produces identical primary output
text, regardless of the ambient clock or of where in the clock each
instance starts; with addTimestamp enabled the output additionally
depends on the clock samples, so equality requires both instances to
observe the same samples. -/
theorem formatter_clock_independent (v : Variant) (cfg : WriterCfg) (wa : Bool) (ml : Int)
    (c1 c2 : Nat → Nat) (t0 t1 : Nat) (chunks : List (List Nat))
    (hts : cfg.add_timestamp = false) :
    ptext (runVariant v cfg c1 wa ml t0 chunks) =
      ptext (runVariant v cfg c2 wa ml t1 chunks) := by
  cases v with
  | raw =>
    have h := rawWriteChunks_congr cfg chunks (initW t0) (initW t1) rfl rfl rfl
    show ptext (rawWriteChunks cfg (initW t0) chunks) =
      ptext (rawWriteChunks cfg (initW t1) chunks)
    unfold ptext
    rw [h.1]
  | line =>
    show ptext (lineWriteChunks cfg c1 (initLine t0) chunks).w =
      ptext (lineWriteChunks cfg c2 (initLine t1) chunks).w
    rw [lineWriteChunks_eq_flatten, lineWriteChunks_eq_flatten]
    have e0 : initLine t0 = ⟨setTicks t0 (initW 0), true⟩ := rfl
    have e1 : initLine t1 = ⟨setTicks t1 (initW 0), true⟩ := rfl
    rw [e0, e1, lineWrite_setTicks cfg c1 chunks.flatten hts (initW 0) true t0,
      lineWrite_setTicks cfg c2 chunks.flatten hts (initW 0) true t1]
    have hsame := lineWrite_no_clock cfg c1 c2 chunks.flatten hts ⟨initW 0, true⟩
    show ptext (setTicks t0 (lineWrite cfg c1 ⟨initW 0, true⟩ chunks.flatten).w) =
      ptext (setTicks t1 (lineWrite cfg c2 ⟨initW 0, true⟩ chunks.flatten).w)
    rw [hsame]
    rfl
  | hex =>
    show ptext (hexWriteChunks cfg c1 (initHex t0 wa ml) chunks).w =
      ptext (hexWriteChunks cfg c2 (initHex t1 wa ml) chunks).w
    rw [hexWriteChunks_eq_flatten, hexWriteChunks_eq_flatten]
    have h := hexWrite_congr_no_ts cfg c1 c2 chunks.flatten hts (initHex t0 wa ml)
      (initHex t1 wa ml) rfl rfl rfl rfl rfl rfl rfl
    unfold ptext
    rw [h.1]

/-- Witness for C9: a Hex run without timestamps is insensitive to
both the clock function and the start index. -/
theorem formatter_clock_independent_witness :
    ((⟨false, true, false, false⟩ : WriterCfg).add_timestamp = false) ∧
    ptext (runVariant Variant.hex ⟨false, true, false, false⟩ (fun i => i) true 4 0
        [[1, 2, 3, 4, 5]]) =
      ptext (runVariant Variant.hex ⟨false, true, false, false⟩ (fun i => i + 9) true 4 42
        [[1, 2, 3, 4, 5]]) :=
  ⟨by decide,
    formatter_clock_independent Variant.hex ⟨false, true, false, false⟩ true 4 (fun i => i)
      (fun i => i + 9) 0 42 [[1, 2, 3, 4, 5]] (by decide)⟩

/-- Counterexample for claim C6: with a configured open log and
addTimestamp enabled, a single timestamp write mirrors a marker whose
time value comes from a second time.time() sample; under an advancing
clock the mirrored text differs from the primary text with color
codes removed, refuting character-for-character identity. -/
theorem sink_mirror_cex :
    stripColor (ptext (runOps ⟨true, false, true, false⟩ (fun i => i) (initW 0)
        [WOp.timestamp])) ≠
      ltext (runOps ⟨true, false, true, false⟩ (fun i => i) (initW 0) [WOp.timestamp]) := by
  decide

/-- Claim C6 (amended): for every sequence of Writer operations with a
configured open log destination, the mirrored log text equals the
primary text with color codes removed, provided the written payloads
contain no raw ESC character and the clock returns the same value for
every sample (each timestamp marker samples time.time() once for the
primary write and once for the mirror, so equal samples are needed
for the two copies of a marker to agree). -/
theorem sink_mirror_uncolored (cfg : WriterCfg) (k t0 : Nat) (ops : List WOp)
    (hlog : cfg.has_log = true) (hcl : cfg.log_closed = false)
    (hesc : ∀ op ∈ ops, opEscFree op) :
    stripColor (ptext (runOps cfg (fun _ => k) (initW t0) ops)) =
      ltext (runOps cfg (fun _ => k) (initW t0) ops) :=
  (runOps_mirror cfg k hlog hcl ops (initW t0) hesc rfl rfl).1

/-- Witness for C6: a colored, timestamped run of one data write, one
timestamp and one metadata line under a constant clock. -/
theorem sink_mirror_uncolored_witness :
    ((⟨true, true, true, false⟩ : WriterCfg).has_log = true ∧
      (⟨true, true, true, false⟩ : WriterCfg).log_closed = false ∧
      (∀ op ∈ [WOp.write Tag.chr ['h'], WOp.timestamp, WOp.meta ['o']], opEscFree op)) ∧
    stripColor (ptext (runOps ⟨true, true, true, false⟩ (fun _ => 7) (initW 0)
        [WOp.write Tag.chr ['h'], WOp.timestamp, WOp.meta ['o']])) =
      ltext (runOps ⟨true, true, true, false⟩ (fun _ => 7) (initW 0)
        [WOp.write Tag.chr ['h'], WOp.timestamp, WOp.meta ['o']]) :=
  ⟨⟨by decide, by decide, by decide⟩,
    sink_mirror_uncolored ⟨true, true, true, false⟩ 7 0
      [WOp.write Tag.chr ['h'], WOp.timestamp, WOp.meta ['o']] (by decide) (by decide)
      (by decide)⟩

/-- Counterexample for claim C7: with the log destination configured
but closed, a write still succeeds on the primary stream, the mirror
is silently skipped, and no warning is surfaced — the operator-message
channel stays empty — refuting "surfaced to the caller as a soft
warning rather than being silently dropped". -/
theorem log_mirror_silent_cex :
    (runOps ⟨false, false, true, true⟩ (fun i => i) (initW 0)
        [WOp.write Tag.chr ['x']]).primary ≠ [] ∧
    (runOps ⟨false, false, true, true⟩ (fun i => i) (initW 0)
        [WOp.write Tag.chr ['x']]).log = [] ∧
    (runOps ⟨false, false, true, true⟩ (fun i => i) (initW 0)
        [WOp.write Tag.chr ['x']]).warnings = [] := by
  decide

/-- Claim C7 (amended): when the log destination has been closed, the
primary output is unaffected (it equals the primary output of the
same run with an open log), but the skipped mirror writes are
silently dropped: the log receives nothing and no warning is ever
surfaced (Writer methods never emit an operator message). -/
theorem log_mirror_no_warning (cfg : WriterCfg) (clock : Nat → Nat) (st : WriterSt)
    (ops : List WOp) (hcl : cfg.log_closed = true) :
    (runOps cfg clock st ops).log = st.log ∧
    (runOps cfg clock st ops).warnings = st.warnings ∧
    (runOps cfg clock st ops).primary =
      (runOps { cfg with log_closed := false } clock st ops).primary :=
  ⟨runOps_log_closed cfg clock ops st hcl, runOps_warnings cfg clock ops st,
    (runOps_primary_congr cfg { cfg with log_closed := false } rfl rfl clock ops st st rfl
      rfl).1⟩

/-- Witness for C7: one data write and one timestamp against a closed
log leave the log and warning channels untouched while the primary
output matches the open-log run. -/
theorem log_mirror_no_warning_witness :
    ((⟨true, false, true, true⟩ : WriterCfg).log_closed = true) ∧
    ((runOps ⟨true, false, true, true⟩ (fun i => i) (initW 0)
        [WOp.write Tag.chr ['x'], WOp.timestamp]).log = (initW 0).log ∧
      (runOps ⟨true, false, true, true⟩ (fun i => i) (initW 0)
        [WOp.write Tag.chr ['x'], WOp.timestamp]).warnings = (initW 0).warnings ∧
      (runOps ⟨true, false, true, true⟩ (fun i => i) (initW 0)
          [WOp.write Tag.chr ['x'], WOp.timestamp]).primary =
        (runOps { (⟨true, false, true, true⟩ : WriterCfg) with log_closed := false }
          (fun i => i) (initW 0) [WOp.write Tag.chr ['x'], WOp.timestamp]).primary) :=
  ⟨by decide,
    log_mirror_no_warning ⟨true, false, true, true⟩ (fun i => i) (initW 0)
      [WOp.write Tag.chr ['x'], WOp.timestamp] (by decide)⟩

/-- Counterexample for claim C5: with maxColumns = 0 (reachable via
--hexbytes 0), after one processed byte the claimed range invariant
columnCount less-or-equal maxColumns is already violated
(columnCount = 1 exceeds maxColumns = 0). -/
theorem hex_column_invariant_cex :
    ¬(((hexWriteChunks ⟨false, false, false, false⟩ (fun i => i) (initHex 0 true 0)
          [[5]]).current_length : Int) ≤
        (hexWriteChunks ⟨false, false, false, false⟩ (fun i => i) (initHex 0 true 0)
          [[5]]).max_length) := by
  decide

/-- Claim C5 (amended): provided maxColumns ≥ 1, for every chunk
sequence fed through a freshly constructed Hex formatter the state
invariant holds: after every processed byte columnCount is at most
maxColumns, every row terminated in the trace (by an ASCII gutter or
a bare row break) has exactly maxColumns byte entries, the trailing
unterminated row has exactly columnCount entries, and columnCount
ends strictly below maxColumns (reaching maxColumns always triggered
a flush and a reset to 0). -/
theorem hex_column_invariant (cfg : WriterCfg) (clock : Nat → Nat) (t0 : Nat) (wa : Bool)
    (m : Nat) (hm : 1 ≤ m) (chunks : List (List Nat)) :
    (∀ k : Nat,
      (hexWrite cfg clock (initHex t0 wa (m : Int)) (chunks.flatten.take k)).current_length ≤
        m) ∧
    (∀ r ∈ (rowScan
        (hexWriteChunks cfg clock (initHex t0 wa (m : Int)) chunks).w.primary 0).1, r = m) ∧
    (rowScan (hexWriteChunks cfg clock (initHex t0 wa (m : Int)) chunks).w.primary 0).2 =
      (hexWriteChunks cfg clock (initHex t0 wa (m : Int)) chunks).current_length ∧
    (hexWriteChunks cfg clock (initHex t0 wa (m : Int)) chunks).current_length < m := by
  have hz : ([] : List Nat).length < m := by simpa using hm
  refine ⟨?_, ?_, ?_, ?_⟩
  · intro k
    rw [(hexRun_fresh cfg clock t0 wa m hm (chunks.flatten.take k)).1]
    have := (rowAccFrom_rows m hm (chunks.flatten.take k) [] hz).2.1
    omega
  · rw [hexWriteChunks_eq_flatten, (hexRun_fresh cfg clock t0 wa m hm chunks.flatten).2.1]
    intro r hr
    simp only [List.mem_map] at hr
    obtain ⟨row, hrowmem, hrl⟩ := hr
    rw [← hrl]
    exact (rowAccFrom_rows m hm chunks.flatten [] hz).1 row hrowmem
  · rw [hexWriteChunks_eq_flatten, (hexRun_fresh cfg clock t0 wa m hm chunks.flatten).2.1,
      (hexRun_fresh cfg clock t0 wa m hm chunks.flatten).1]
  · rw [hexWriteChunks_eq_flatten, (hexRun_fresh cfg clock t0 wa m hm chunks.flatten).1]
    exact (rowAccFrom_rows m hm chunks.flatten [] hz).2.1

/-- Witness for C5 at maxColumns 4 with ten bytes over two chunks. -/
theorem hex_column_invariant_witness :
    (1 ≤ 4) ∧
    ((∀ k : Nat,
        (hexWrite ⟨true, false, false, false⟩ (fun i => i) (initHex 0 true 4)
          (([[1, 2, 3], [4, 5, 6, 7, 8, 9, 10]] : List (List Nat)).flatten.take k)).current_length
          ≤ 4) ∧
      (∀ r ∈ (rowScan
          (hexWriteChunks ⟨true, false, false, false⟩ (fun i => i) (initHex 0 true 4)
            [[1, 2, 3], [4, 5, 6, 7, 8, 9, 10]]).w.primary 0).1, r = 4) ∧
      (rowScan (hexWriteChunks ⟨true, false, false, false⟩ (fun i => i) (initHex 0 true 4)
          [[1, 2, 3], [4, 5, 6, 7, 8, 9, 10]]).w.primary 0).2 =
        (hexWriteChunks ⟨true, false, false, false⟩ (fun i => i) (initHex 0 true 4)
          [[1, 2, 3], [4, 5, 6, 7, 8, 9, 10]]).current_length ∧
      (hexWriteChunks ⟨true, false, false, false⟩ (fun i => i) (initHex 0 true 4)
          [[1, 2, 3], [4, 5, 6, 7, 8, 9, 10]]).current_length < 4) :=
  ⟨by decide,
    hex_column_invariant ⟨true, false, false, false⟩ (fun i => i) 0 true 4 (by decide)
      [[1, 2, 3], [4, 5, 6, 7, 8, 9, 10]]⟩

/-- Counterexample for claim C2: on a freshly constructed Hex
formatter no partial row remains (columnCount = 0), yet the
end-of-session flush of HexWriter.__del__ still runs and emits output
(a full-width padding row and an empty ASCII gutter), refuting the
claimed flushed-if-and-only-if-a-partial-row-remains behavior. -/
theorem hexDel_unconditional_flush_cex :
    (initHex 0 true 16).current_length = 0 ∧
    (hexDel ⟨false, false, false, false⟩ (initHex 0 true 16)).w.primary ≠ [] := by
  constructor
  · rfl
  · decide

/-- Claim C2 (amended): the end-of-session flush of the Hex formatter
runs unconditionally when the finalizer runs, not only when a partial
row remains: after feeding any chunk sequence (with the ASCII gutter
enabled and maxColumns ≥ 1) and finalizing, the emitted metadata
lines are exactly the gutters of all completed rows followed by one
gutter for the trailing row — the trailing partial row is never lost,
and when no partial row remains the extra flush still emits a
(spurious) empty gutter.  The rows here are the grouping rowAcc of
the input: its concatenation is the input and every completed row has
exactly maxColumns bytes. -/
theorem hexDel_gutter_complete (cfg : WriterCfg) (clock : Nat → Nat) (t0 : Nat) (m : Nat)
    (hm : 1 ≤ m) (chunks : List (List Nat)) :
    metaToks (hexDel cfg
        (hexWriteChunks cfg clock (initHex t0 true (m : Int)) chunks)).w.primary =
      ((rowAcc m chunks.flatten).1 ++ [(rowAcc m chunks.flatten).2]).map
        (fun r => metaRendered cfg (gutterText r)) ∧
    ((rowAcc m chunks.flatten).1).flatten ++ (rowAcc m chunks.flatten).2 = chunks.flatten ∧
    (∀ r ∈ (rowAcc m chunks.flatten).1, r.length = m) := by
  have hz : ([] : List Nat).length < m := by simpa using hm
  have hfresh := hexRun_fresh cfg clock t0 true m hm chunks.flatten
  have hrows := rowAccFrom_rows m hm chunks.flatten [] hz
  refine ⟨?_, by simpa using hrows.2.2, hrows.1⟩
  rw [hexWriteChunks_eq_flatten]
  have hdel := hexDel_metaToks cfg
    (hexWrite cfg clock (initHex t0 true (m : Int)) chunks.flatten) hfresh.2.2.2.2
  rw [hdel.1, hfresh.2.2.1, hfresh.2.2.2.1]
  simp [rowAcc]

/-- Witness for C2: five bytes at maxColumns 2 yield gutters for two
completed rows and the trailing one-byte row. -/
theorem hexDel_gutter_complete_witness :
    (1 ≤ 2) ∧
    (metaToks (hexDel ⟨false, false, false, false⟩
          (hexWriteChunks ⟨false, false, false, false⟩ (fun i => i) (initHex 0 true 2)
            [[65, 66, 67], [68, 69]])).w.primary =
        ((rowAcc 2 ([[65, 66, 67], [68, 69]] : List (List Nat)).flatten).1 ++
            [(rowAcc 2 ([[65, 66, 67], [68, 69]] : List (List Nat)).flatten).2]).map
          (fun r => metaRendered ⟨false, false, false, false⟩ (gutterText r)) ∧
      ((rowAcc 2 ([[65, 66, 67], [68, 69]] : List (List Nat)).flatten).1).flatten ++
          (rowAcc 2 ([[65, 66, 67], [68, 69]] : List (List Nat)).flatten).2 =
        ([[65, 66, 67], [68, 69]] : List (List Nat)).flatten ∧
      (∀ r ∈ (rowAcc 2 ([[65, 66, 67], [68, 69]] : List (List Nat)).flatten).1,
        r.length = 2)) :=
  ⟨by decide,
    hexDel_gutter_complete ⟨false, false, false, false⟩ (fun i => i) 0 2 (by decide)
      [[65, 66, 67], [68, 69]]⟩

/-- Claim C4 (confirmed): for every non-empty chunk sequence whose
bytes contain exactly n line feeds, a freshly constructed Line
formatter with addTimestamp enabled emits exactly n + 1 timestamp
markers, and the very first token written to the primary stream is a
timestamp marker (so the first marker precedes the first emitted
character). -/
theorem line_timestamp_count (cfg : WriterCfg) (clock : Nat → Nat) (t0 : Nat)
    (chunks : List (List Nat)) (hts : cfg.add_timestamp = true)
    (hbytes : ∀ b ∈ chunks.flatten, b < 256) (hne : chunks.flatten ≠ []) :
    tsCount (lineWriteChunks cfg clock (initLine t0) chunks).w.primary =
      chunks.flatten.count 10 + 1 ∧
    (lineWriteChunks cfg clock (initLine t0) chunks).w.primary.head?.map Prod.fst =
      some Tag.ts := by
  rw [lineWriteChunks_eq_flatten]
  cases hx : chunks.flatten with
  | nil => exact absurd hx hne
  | cons b tl =>
    rw [hx] at hbytes
    have hb : b < 256 := hbytes b (by simp)
    have hstep := lineWriteByte_first cfg clock (initLine t0) b hts rfl rfl
    have hrw : lineWrite cfg clock (initLine t0) (b :: tl) =
        lineWrite cfg clock (lineWriteByte cfg clock (initLine t0) b) tl := rfl
    rw [hrw]
    have hp1 : (lineWriteByte cfg clock (initLine t0) b).w.primary ≠ [] := by
      intro hz
      have := hstep.2.2
      rw [hz] at this
      exact Option.noConfusion this
    have hrun := lineWrite_notFirst cfg clock hts tl _ hstep.1 hp1
    constructor
    · rw [hrun.2.1, hstep.2.1]
      have hcnt : (tl.filter (fun x => Char.ofNat x = '\n')).length = tl.count 10 :=
        filter_lf_eq_count tl (fun x hxx => hbytes x (by simp [hxx]))
      rw [hcnt, List.count_cons]
      by_cases hlf : Char.ofNat b = '\n'
      · have hb10 : b = 10 := (charOfNat_eq_lf b hb).1 hlf
        simp [hlf, hb10]
        omega
      · have hbn : ¬b = 10 := fun hz => hlf ((charOfNat_eq_lf b hb).2 hz)
        simp [hlf, hbn]
        omega
    · rw [hrun.2.2]
      exact hstep.2.2

/-- Witness for C4: two chunks carrying one line feed produce exactly
two timestamp markers, the first one leading the output. -/
theorem line_timestamp_count_witness :
    ((⟨true, false, false, false⟩ : WriterCfg).add_timestamp = true ∧
      (∀ b ∈ ([[72, 10], [73]] : List (List Nat)).flatten, b < 256) ∧
      ([[72, 10], [73]] : List (List Nat)).flatten ≠ []) ∧
    (tsCount
        (lineWriteChunks ⟨true, false, false, false⟩ (fun i => i) (initLine 0)
          [[72, 10], [73]]).w.primary =
        ([[72, 10], [73]] : List (List Nat)).flatten.count 10 + 1 ∧
      (lineWriteChunks ⟨true, false, false, false⟩ (fun i => i) (initLine 0)
          [[72, 10], [73]]).w.primary.head?.map Prod.fst = some Tag.ts) :=
  ⟨⟨by decide, by decide, by decide⟩,
    line_timestamp_count ⟨true, false, false, false⟩ (fun i => i) 0 [[72, 10], [73]] (by decide)
      (by decide) (by decide)⟩

/-- Witness for C10: maxColumns = 0 via --hexbytes 0, three bytes in,
no flush and columnCount 3 exceeding maxColumns. -/
theorem hex_no_flush_nonpositive_max_witness :
    ((0 : Int) ≤ 0) ∧
    ((hexWriteChunks ⟨false, false, false, false⟩ (fun i => i) (initHex 0 true 0)
          [[1, 2], [3]]).current_length = 3 ∧
      metaToks (hexWriteChunks ⟨false, false, false, false⟩ (fun i => i) (initHex 0 true 0)
          [[1, 2], [3]]).w.primary = [] ∧
      rowBreakCount (hexWriteChunks ⟨false, false, false, false⟩ (fun i => i) (initHex 0 true 0)
          [[1, 2], [3]]).w.primary = 0 ∧
      (([1, 2, 3] : List Nat) ≠ [] →
        ¬(((hexWriteChunks ⟨false, false, false, false⟩ (fun i => i) (initHex 0 true 0)
              [[1, 2], [3]]).current_length : Int) ≤
            (hexWriteChunks ⟨false, false, false, false⟩ (fun i => i) (initHex 0 true 0)
              [[1, 2], [3]]).max_length))) :=
  ⟨by decide,
    hex_no_flush_nonpositive_max ⟨false, false, false, false⟩ (fun i => i) 0 true 0 [[1, 2], [3]]
      (by decide)⟩

end PySermon
